import Mathlib

/-!
Verification development for the canvas-github-agent repository.

The Python sources (src/main.py, src/templates.py, src/github_tools.py,
src/notion_tools.py) are shallowly embedded below.  Pure text-processing
functions are translated to executable Lean functions over `List Char`
(Python strings are sequences of code points, so `List Char` is the exact
data model; Python's ASCII-range case mapping and whitespace classes are
modelled explicitly).  Stateful orchestration code (main.py's task methods)
is embedded as explicit state passing: the external collaborators (GitHub,
Notion) become function-valued parameters and the remote calls performed by
a run are accumulated in an explicit call log.
-/

/-- Python's `str.lower` restricted to the ASCII range: maps `A`-`Z` (65-90)
to `a`-`z`; every other code point is left unchanged.  All keyword sets,
template keys and trigger strings in this repository are ASCII, so this is
the behaviour the code exercises. -/
def asciiLower (c : Char) : Char :=
  if 65 ≤ c.toNat && c.toNat ≤ 90 then Char.ofNat (c.toNat + 32) else c

/-- `str.lower` on a whole string (ASCII model). -/
def lowerStr (s : String) : String :=
  String.mk (s.data.map asciiLower)

/-- Python's `\s` / `str.strip` whitespace class (ASCII): space, tab,
newline, carriage return, vertical tab, form feed. -/
def pyWs (c : Char) : Bool :=
  c = ' ' || c = '\t' || c = '\n' || c = '\r' || c = '\x0b' || c = '\x0c'

/-- Strip characters satisfying `p` from both ends of a list
(Python's `str.strip`). -/
def stripList (p : Char → Bool) (l : List Char) : List Char :=
  ((l.dropWhile p).reverse.dropWhile p).reverse

/-- Python `str.strip()` (no argument: strips whitespace). -/
def pyStrip (s : String) : String :=
  String.mk (stripList pyWs s.data)

/-- Substring containment, Python's `needle in hay` on strings. -/
def containsStr (hay needle : String) : Bool :=
  decide (needle.data <:+: hay.data)

/-- The character class `[a-z0-9]` of `normalize_slug`'s regex. -/
def isSlugChar (c : Char) : Bool :=
  (97 ≤ c.toNat && c.toNat ≤ 122) || (48 ≤ c.toNat && c.toNat ≤ 57)

/-- One left-to-right pass implementing
`re.sub(r'[^a-z0-9]+', '-', slug)`: every maximal run of characters outside
`[a-z0-9]` is replaced by a single hyphen.  The boolean flag records whether
the scanner is currently inside such a run (in which case further non-slug
characters are absorbed into the hyphen already emitted). -/
def slugScan : Bool → List Char → List Char
  | _, [] => []
  | inRun, c :: rest =>
    if isSlugChar c then c :: slugScan false rest
    else if inRun then slugScan true rest
    else '-' :: slugScan true rest

/-- `templates.normalize_slug`: lower-case, collapse runs of non-`[a-z0-9]`
to single hyphens, strip leading/trailing hyphens. -/
def normalize_slug (name : String) : String :=
  String.mk
    (stripList (fun c => decide (c = '-')) (slugScan false (name.data.map asciiLower)))

/-! ### Generic facts about `stripList` -/

theorem head?_dropWhile_not (p : Char → Bool) :
    ∀ (l : List Char) (c : Char), (l.dropWhile p).head? = some c → p c = false := by
  intro l
  induction l with
  | nil => intro c h; simp [List.dropWhile] at h
  | cons a rest ih =>
    intro c h
    by_cases hp : p a
    · rw [List.dropWhile_cons_of_pos hp] at h
      exact ih c h
    · rw [List.dropWhile_cons_of_neg hp] at h
      simp at h
      rw [← h]
      exact Bool.eq_false_iff.mpr hp

theorem stripList_infix_self (p : Char → Bool) (l : List Char) :
    stripList p l <:+: l := by
  unfold stripList
  have h1 : l.dropWhile p <:+ l := List.dropWhile_suffix p
  have h2 : (l.dropWhile p).reverse.dropWhile p <:+ (l.dropWhile p).reverse :=
    List.dropWhile_suffix p
  have h3 : ((l.dropWhile p).reverse.dropWhile p).reverse <+: l.dropWhile p := by
    simpa using List.reverse_prefix.mpr h2
  exact List.IsInfix.trans h3.isInfix h1.isInfix

theorem stripList_head (p : Char → Bool) (l : List Char) (c : Char)
    (h : (stripList p l).head? = some c) : p c = false := by
  unfold stripList at h
  set d := l.dropWhile p with hd
  set r := d.reverse.dropWhile p with hr
  by_cases hnil : r = []
  · rw [hnil] at h; simp at h
  · have hlast : r.getLast? = d.reverse.getLast? := by
      obtain ⟨t, ht⟩ : ∃ t, t ++ r = d.reverse := List.dropWhile_suffix p
      rw [← ht, List.getLast?_append_of_ne_nil]
      exact hnil
    rw [List.head?_reverse] at h
    rw [hlast, List.getLast?_reverse] at h
    exact head?_dropWhile_not p l c h

theorem stripList_getLast (p : Char → Bool) (l : List Char) (c : Char)
    (h : (stripList p l).getLast? = some c) : p c = false := by
  unfold stripList at h
  rw [List.getLast?_reverse] at h
  exact head?_dropWhile_not p (l.dropWhile p).reverse c h

theorem dropWhile_eq_self_of_head (p : Char → Bool) (l : List Char)
    (h : ∀ c, l.head? = some c → p c = false) : l.dropWhile p = l := by
  cases l with
  | nil => rfl
  | cons a rest =>
    have := h a (by rfl)
    rw [List.dropWhile_cons_of_neg (by simp [this])]

theorem stripList_eq_self (p : Char → Bool) (l : List Char)
    (hh : ∀ c, l.head? = some c → p c = false)
    (hl : ∀ c, l.getLast? = some c → p c = false) : stripList p l = l := by
  unfold stripList
  rw [dropWhile_eq_self_of_head p l hh]
  rw [dropWhile_eq_self_of_head p l.reverse
    (by intro c hc; rw [List.head?_reverse] at hc; exact hl c hc)]
  exact List.reverse_reverse l

/-! ### Facts about `slugScan` -/

theorem slugScan_mem : ∀ (b : Bool) (l : List Char),
    ∀ c ∈ slugScan b l, isSlugChar c = true ∨ c = '-' := by
  intro b l
  induction l generalizing b with
  | nil => intro c hc; simp [slugScan] at hc
  | cons a rest ih =>
    intro c hc
    unfold slugScan at hc
    by_cases ha : isSlugChar a
    · rw [if_pos ha] at hc
      rcases List.mem_cons.mp hc with h | h
      · exact Or.inl (h ▸ ha)
      · exact ih false c h
    · rw [if_neg ha] at hc
      by_cases hb : b
      · rw [if_pos hb] at hc; exact ih true c hc
      · rw [if_neg hb] at hc
        rcases List.mem_cons.mp hc with h | h
        · exact Or.inr h
        · exact ih true c h

theorem slugScan_true_head : ∀ (l : List Char) (c : Char),
    (slugScan true l).head? = some c → isSlugChar c = true := by
  intro l
  induction l with
  | nil => intro c h; simp [slugScan] at h
  | cons a rest ih =>
    intro c h
    unfold slugScan at h
    by_cases ha : isSlugChar a
    · rw [if_pos ha] at h; simp at h; exact h ▸ ha
    · rw [if_neg ha, if_pos rfl] at h; exact ih c h

theorem not_isSlugChar_dash : isSlugChar '-' = false := by decide

theorem slugScan_chain : ∀ (b : Bool) (l : List Char),
    List.Chain' (fun a b => ¬(a = '-' ∧ b = '-')) (slugScan b l) := by
  intro b l
  induction l generalizing b with
  | nil => simp [slugScan]
  | cons a rest ih =>
    unfold slugScan
    by_cases ha : isSlugChar a
    · rw [if_pos ha]
      rw [List.chain'_cons']
      refine ⟨?_, ih false⟩
      intro y _
      intro hcontra
      rw [hcontra.1] at ha
      rw [not_isSlugChar_dash] at ha
      exact Bool.false_ne_true ha
    · rw [if_neg ha]
      by_cases hb : b
      · rw [if_pos hb]; exact ih true
      · rw [if_neg hb]
        rw [List.chain'_cons']
        refine ⟨?_, ih true⟩
        intro y hy
        intro hcontra
        have := slugScan_true_head rest y hy
        rw [hcontra.2] at this
        rw [not_isSlugChar_dash] at this
        exact Bool.false_ne_true this

/-! ### Idempotence-supporting lemmas -/

theorem map_id_of_forall_mem (f : Char → Char) (l : List Char)
    (h : ∀ c ∈ l, f c = c) : l.map f = l := by
  induction l with
  | nil => rfl
  | cons a rest ih =>
    simp only [List.map_cons]
    rw [h a (List.mem_cons_self a rest), ih (fun c hc => h c (List.mem_cons_of_mem a hc))]

theorem asciiLower_id_of_slug (c : Char)
    (h : isSlugChar c = true ∨ c = '-') : asciiLower c = c := by
  unfold asciiLower
  rcases h with h | h
  · unfold isSlugChar at h
    simp only [Bool.or_eq_true, Bool.and_eq_true, decide_eq_true_eq] at h
    rw [if_neg]
    simp only [Bool.and_eq_true, decide_eq_true_eq, not_and]
    omega
  · subst h; decide

theorem slugScan_id : ∀ (l : List Char),
    (∀ c ∈ l, isSlugChar c = true ∨ c = '-') →
    List.Chain' (fun a b => ¬(a = '-' ∧ b = '-')) l →
    slugScan false l = l ∧ (l.head? ≠ some '-' → slugScan true l = l) := by
  intro l
  induction l with
  | nil => intro _ _; exact ⟨rfl, fun _ => rfl⟩
  | cons a rest ih =>
    intro hmem hchain
    have hmem' : ∀ c ∈ rest, isSlugChar c = true ∨ c = '-' :=
      fun c hc => hmem c (List.mem_cons_of_mem a hc)
    have hchain' : List.Chain' (fun a b => ¬(a = '-' ∧ b = '-')) rest :=
      (List.chain'_cons'.mp hchain).2
    obtain ⟨ihf, iht⟩ := ih hmem' hchain'
    by_cases ha : isSlugChar a
    · constructor
      · unfold slugScan; rw [if_pos ha, ihf]
      · intro _; unfold slugScan; rw [if_pos ha, ihf]
    · have hdash : a = '-' := by
        rcases hmem a (List.mem_cons_self a rest) with h | h
        · exact absurd h ha
        · exact h
      constructor
      · unfold slugScan
        rw [if_neg ha, if_neg (by simp)]
        subst hdash
        congr 1
        apply iht
        intro hcontra
        rcases hr : rest with _ | ⟨r0, rtail⟩
        · rw [hr] at hcontra; simp at hcontra
        · rw [hr] at hcontra
          simp at hcontra
          have := (List.chain'_cons'.mp hchain).1 r0 (by rw [hr]; rfl)
          exact this ⟨rfl, hcontra⟩
      · intro hhead
        exact absurd (show (a :: rest).head? = some '-' by simp [hdash]) hhead

/-- **C5.** For every string `s`, `normalize_slug s` contains only lowercase
alphanumerics and hyphens, no two adjacent hyphens, and no leading or
trailing hyphen; `normalize_slug "" = ""`; and `normalize_slug` is
idempotent. -/
theorem claim_C5 (s : String) :
    (∀ c ∈ (normalize_slug s).data, isSlugChar c = true ∨ c = '-') ∧
    List.Chain' (fun a b => ¬(a = '-' ∧ b = '-')) (normalize_slug s).data ∧
    (normalize_slug s).data.head? ≠ some '-' ∧
    (normalize_slug s).data.getLast? ≠ some '-' ∧
    normalize_slug "" = "" ∧
    normalize_slug (normalize_slug s) = normalize_slug s := by
  have hdata : (normalize_slug s).data =
      stripList (fun c => decide (c = '-')) (slugScan false (s.data.map asciiLower)) := rfl
  have hinf : (normalize_slug s).data <:+: slugScan false (s.data.map asciiLower) := by
    rw [hdata]; exact stripList_infix_self _ _
  have hmem : ∀ c ∈ (normalize_slug s).data, isSlugChar c = true ∨ c = '-' := by
    intro c hc
    exact slugScan_mem false (s.data.map asciiLower) c (hinf.subset hc)
  have hchain : List.Chain' (fun a b => ¬(a = '-' ∧ b = '-')) (normalize_slug s).data :=
    List.Chain'.infix (slugScan_chain false (s.data.map asciiLower)) hinf
  have hhead : (normalize_slug s).data.head? ≠ some '-' := by
    intro h
    have := stripList_head (fun c => decide (c = '-')) _ '-' (hdata ▸ h)
    simp at this
  have hlast : (normalize_slug s).data.getLast? ≠ some '-' := by
    intro h
    have := stripList_getLast (fun c => decide (c = '-')) _ '-' (hdata ▸ h)
    simp at this
  refine ⟨hmem, hchain, hhead, hlast, by decide, ?_⟩
  have hmap : (normalize_slug s).data.map asciiLower = (normalize_slug s).data :=
    map_id_of_forall_mem asciiLower (normalize_slug s).data
      (fun c hc => asciiLower_id_of_slug c (hmem c hc))
  show String.mk
      (stripList (fun c => decide (c = '-'))
        (slugScan false ((normalize_slug s).data.map asciiLower))) = normalize_slug s
  rw [hmap]
  rw [(slugScan_id (normalize_slug s).data hmem hchain).1]
  rw [stripList_eq_self _ _
    (by intro c hc; by_contra hfalse
        simp at hfalse
        exact hhead (hfalse ▸ hc))
    (by intro c hc; by_contra hfalse
        simp at hfalse
        exact hlast (hfalse ▸ hc))]

/-- Witness for C5: concrete evaluation at `"Hello, World!"` (which
normalizes to `"hello-world"`), discharging the membership hypothesis of
the first conjunct at the character `h`. -/
theorem claim_C5_witness :
    (isSlugChar 'h' = true ∨ 'h' = '-') ∧
    normalize_slug (normalize_slug "Hello, World!") = normalize_slug "Hello, World!" :=
  ⟨(claim_C5 "Hello, World!").1 'h' (by decide),
   (claim_C5 "Hello, World!").2.2.2.2.2⟩

/-! ## Regex-style scanning infrastructure

Each `re.sub`/`re.findall` pass of the source is translated to a
left-to-right scan.  A rule inspects the current suffix; on a match it
returns the replacement (or capture) together with the suffix after the
match, and the scan resumes there — exactly the non-overlapping
left-to-right semantics of `re.sub`/`re.findall`.  Every rule consumes at
least one character, so a fuel equal to the input length never runs out. -/

/-- Split at the first occurrence of `needle`, returning the part before it
and the part after it. -/
def splitOnFirst (needle : List Char) : List Char → Option (List Char × List Char)
  | [] => none
  | c :: rest =>
    if needle.isPrefixOf (c :: rest) then some ([], (c :: rest).drop needle.length)
    else
      match splitOnFirst needle rest with
      | some (pre, post) => some (c :: pre, post)
      | none => none

/-- Split at the last occurrence of `needle` (used for greedy `[^>]+`
backtracking in the link/image passes). -/
def splitOnLast (needle : List Char) : List Char → Option (List Char × List Char)
  | [] => none
  | c :: rest =>
    match splitOnLast needle rest with
    | some (pre, post) => some (c :: pre, post)
    | none =>
      if needle.isPrefixOf (c :: rest) then some ([], (c :: rest).drop needle.length)
      else none

/-- Driver for a substitution pass (`re.sub`). -/
def scanGo (rule : List Char → Option (List Char × List Char)) :
    Nat → List Char → List Char
  | _, [] => []
  | 0, l => l
  | fuel + 1, c :: rest =>
    match rule (c :: rest) with
    | some (repl, after) => repl ++ scanGo rule fuel after
    | none => c :: scanGo rule fuel rest

def scanSub (rule : List Char → Option (List Char × List Char))
    (l : List Char) : List Char :=
  scanGo rule l.length l

/-- Rule for `re.sub(r'<[^>]+>', '', text)`: a `<` whose first following `>`
is at distance at least two strips the whole tag; a bare `<>` or an
unterminated `<` is left in place. -/
def tagRule : List Char → Option (List Char × List Char)
  | '<' :: rest =>
    match splitOnFirst ['>'] rest with
    | some (inner, after) => if inner = [] then none else some ([], after)
    | none => none
  | _ => none

/-- `main.CanvasGitHubAgent.strip_html`: remove HTML tags, then
`str.strip()`; empty/falsy input returns the empty string. -/
def strip_html (text : String) : String :=
  if text = "" then "" else pyStrip (String.mk (scanSub tagRule text.data))

/-! ## Assignment type inference (main.py) -/

def coding_keywords : List String :=
  ["code", "coding", "program", "programming", "algorithm", "implement",
   "function", "class", "method", "script", "compile", "run", "test",
   "pytest", "java", "python", "javascript", "c++", "cpp", "repository",
   "github", "git", "api", "software", "debug", "build"]

def writing_keywords : List String :=
  ["essay", "paper", "reflection", "journal", "discussion", "thesis",
   "annotated bibliography", "literature review", "report", "summary",
   "argument", "draft", "citation", "mla", "apa", "writing", "paragraph"]

/-- `main.CanvasGitHubAgent.infer_assignment_type`: strip HTML from the
description, lower-case `f"{name} {description}"`, count keywords present
by substring containment, return `"coding"` iff the coding score is at
least the writing score. -/
def infer_assignment_type (assignment_name assignment_description : String) : String :=
  let text := lowerStr (assignment_name ++ " " ++ strip_html assignment_description)
  let coding_score := coding_keywords.countP (fun k => containsStr text k)
  let writing_score := writing_keywords.countP (fun k => containsStr text k)
  if writing_score ≤ coding_score then "coding" else "writing"

/-- **C2.** The type inference strips HTML from the description,
lower-cases the concatenation of name and stripped description, scores
both fixed keyword sets by substring containment, and returns `"coding"`
exactly when the coding count is ≥ the writing count; in particular the
all-zero tie on empty inputs yields `"coding"`. -/
theorem claim_C2 (assignment_name assignment_description : String) :
    (infer_assignment_type assignment_name assignment_description = "coding" ↔
      writing_keywords.countP
          (fun k => containsStr
            (lowerStr (assignment_name ++ " " ++ strip_html assignment_description)) k) ≤
        coding_keywords.countP
          (fun k => containsStr
            (lowerStr (assignment_name ++ " " ++ strip_html assignment_description)) k)) ∧
    infer_assignment_type "" "" = "coding" := by
  constructor
  · unfold infer_assignment_type
    by_cases h : writing_keywords.countP
        (fun k => containsStr
          (lowerStr (assignment_name ++ " " ++ strip_html assignment_description)) k) ≤
      coding_keywords.countP
        (fun k => containsStr
          (lowerStr (assignment_name ++ " " ++ strip_html assignment_description)) k)
    · simp only [if_pos h]
      exact iff_of_true trivial h
    · simp only [if_neg h]
      exact iff_of_false (by decide) h
  · decide

/-! ## Fetching the next upcoming assignment (main.py) -/

/-- A Canvas assignment record as consumed by `fetch_assignment_task`.
`due_at`/`created_at` are `Option` because the Python code probes them with
`dict.get`. -/
structure Assignment where
  id : Nat
  name : String
  description : String
  due_at : Option String
  created_at : Option String
deriving DecidableEq

/-- The "upcoming" predicate of `fetch_assignment_task`: the record has a
truthy `due_at` whose parse succeeds and is strictly after `now`.
`parseDate` abstracts `dateutil_parser.parse` (a timestamp is modelled as
an `Int`; an unparsable string is `none`). -/
def upcomingFilter (parseDate : String → Option Int) (now : Int) (a : Assignment) : Bool :=
  match a.due_at with
  | none => false
  | some s =>
    if s = "" then false
    else
      match parseDate s with
      | none => false
      | some d => decide (now < d)

/-- Sort key for the upcoming branch: the parsed due timestamp (every
member of the upcoming list parses, so the default is never used there). -/
def dueKey (parseDate : String → Option Int) (a : Assignment) : Int :=
  match a.due_at with
  | some s => (parseDate s).getD 0
  | none => 0

/-- Sort key for the fallback branch: `x.get("created_at", "")`, compared
as a string (Python compares strings by code points). -/
def createdKey (a : Assignment) : List Char :=
  (a.created_at.getD "").data

/-- Code-point lexicographic `≤` on strings-as-lists (Python's string
order, used by `list.sort(key=...)` on `created_at` strings). -/
def charListLe : List Char → List Char → Bool
  | [], _ => true
  | _ :: _, [] => false
  | a :: as, b :: bs =>
    if a.toNat < b.toNat then true
    else if b.toNat < a.toNat then false
    else charListLe as bs

/-- The comparison used by `upcoming.sort(key=lambda x: parse(x["due_at"]))`. -/
def dueR (parseDate : String → Option Int) (x y : Assignment) : Prop :=
  dueKey parseDate x ≤ dueKey parseDate y

instance (parseDate : String → Option Int) : DecidableRel (dueR parseDate) :=
  fun _ _ => Int.decLe _ _

/-- The comparison used by
`assignments.sort(key=lambda x: x.get("created_at", ""), reverse=True)`:
descending code-point order on the `created_at` strings.  A stable sort
under this relation is exactly Python's stable `sort(..., reverse=True)`. -/
def createdR (x y : Assignment) : Prop :=
  charListLe (createdKey y) (createdKey x) = true

instance : DecidableRel createdR :=
  fun _ _ => instDecidableEqBool _ _

/-- `main.CanvasGitHubAgent.fetch_assignment_task`, the branch taken when
no assignment identifier is supplied: raise on an empty course, otherwise
return the earliest-due of the upcoming assignments (stable sort by parsed
due date, first element), falling back to the most recently created
assignment (stable sort by `created_at` string, descending).  Python's
`list.sort` is a stable sort; `List.insertionSort` is the (unique) stable
sort for the same total preorder. -/
def fetch_assignment_task (parseDate : String → Option Int) (now : Int)
    (assignments : List Assignment) : Except String Assignment :=
  match assignments with
  | [] => Except.error "No assignments found for course"
  | _ :: _ =>
    match List.insertionSort (dueR parseDate)
        (assignments.filter (upcomingFilter parseDate now)) with
    | u :: _ => Except.ok u
    | [] =>
      match List.insertionSort createdR assignments with
      | m :: _ => Except.ok m
      | [] => Except.error "No assignments found for course"

theorem charListLe_total : ∀ (a b : List Char), (charListLe a b || charListLe b a) = true := by
  intro a
  induction a with
  | nil => intro b; simp [charListLe]
  | cons x xs ih =>
    intro b
    cases b with
    | nil => simp [charListLe]
    | cons y ys =>
      unfold charListLe
      rcases Nat.lt_trichotomy x.toNat y.toNat with h | h | h
      · simp [h]
      · simp [h, Nat.lt_irrefl]
        exact Bool.or_eq_true_iff.mp (ih ys) |>.elim (fun w => by simp [w]) (fun w => by simp [w])
      · simp [h, Nat.lt_asymm h]

theorem charListLe_trans : ∀ (a b c : List Char),
    charListLe a b = true → charListLe b c = true → charListLe a c = true := by
  intro a
  induction a with
  | nil => intro b c _ _; rfl
  | cons x xs ih =>
    intro b c hab hbc
    cases b with
    | nil => simp [charListLe] at hab
    | cons y ys =>
      cases c with
      | nil => simp [charListLe] at hbc
      | cons z zs =>
        unfold charListLe at hab hbc ⊢
        split_ifs at hab hbc ⊢ with h1 h2 h3 h4 h5 h6 <;> try rfl
        all_goals try omega
        · exact ih ys zs hab hbc

instance (parseDate : String → Option Int) : IsTotal Assignment (dueR parseDate) :=
  ⟨fun a b => le_total (dueKey parseDate a) (dueKey parseDate b)⟩

instance (parseDate : String → Option Int) : IsTrans Assignment (dueR parseDate) :=
  ⟨fun _ _ _ hab hbc => le_trans hab hbc⟩

instance : IsTotal Assignment createdR :=
  ⟨fun a b => by
    unfold createdR
    rcases Bool.or_eq_true_iff.mp (charListLe_total (createdKey b) (createdKey a)) with h | h
    · exact Or.inl h
    · exact Or.inr h⟩

instance : IsTrans Assignment createdR :=
  ⟨fun _ _ _ hab hbc => charListLe_trans _ _ _ hbc hab⟩

/-- The head of a stable sort is a member of the list and a minimum for a
transitive total comparison. -/
theorem insertionSort_head_min {α : Type} (r : α → α → Prop) [DecidableRel r]
    [IsTotal α r] [IsTrans α r]
    (l : List α) (x : α) (xs : List α)
    (h : List.insertionSort r l = x :: xs) :
    x ∈ l ∧ ∀ b ∈ l, r x b := by
  have hperm := List.perm_insertionSort r l
  have hmemx : x ∈ l := hperm.mem_iff.mp (by rw [h]; exact List.mem_cons_self x xs)
  refine ⟨hmemx, ?_⟩
  intro b hb
  have hb' : b ∈ List.insertionSort r l := hperm.mem_iff.mpr hb
  rw [h] at hb'
  rcases List.mem_cons.mp hb' with heq | htail
  · subst heq
    rcases @IsTotal.total _ r _ b b with hr | hr <;> exact hr
  · have hsorted := List.sorted_insertionSort r l
    rw [h] at hsorted
    exact (List.pairwise_cons.mp hsorted).1 b htail

/-- **C1.** With no assignment identifier: an empty course fails with a
NotFound-style error; otherwise the result is the minimum-due member of
the upcoming candidate set (records with truthy, parsable due strictly
after `now`); if that set is empty, the result is a member of the course
maximal in the descending `created_at` string order. -/
theorem claim_C1 (parseDate : String → Option Int) (now : Int)
    (assignments : List Assignment) :
    (assignments = [] →
      fetch_assignment_task parseDate now assignments =
        Except.error "No assignments found for course") ∧
    (assignments ≠ [] → ∃ a,
      fetch_assignment_task parseDate now assignments = Except.ok a ∧
      (assignments.filter (upcomingFilter parseDate now) ≠ [] →
        a ∈ assignments.filter (upcomingFilter parseDate now) ∧
        ∀ b ∈ assignments.filter (upcomingFilter parseDate now),
          dueKey parseDate a ≤ dueKey parseDate b) ∧
      (assignments.filter (upcomingFilter parseDate now) = [] →
        a ∈ assignments ∧
        ∀ b ∈ assignments, charListLe (createdKey b) (createdKey a) = true)) := by
  cases assignments with
  | nil =>
    exact ⟨fun _ => rfl, fun h => absurd rfl h⟩
  | cons x xs =>
    refine ⟨fun h => absurd h (List.cons_ne_nil x xs), fun _ => ?_⟩
    cases hu : List.insertionSort (dueR parseDate)
        ((x :: xs).filter (upcomingFilter parseDate now)) with
    | cons u us =>
      refine ⟨u, ?_, ?_, ?_⟩
      · simp only [fetch_assignment_task, hu]
      · intro _
        obtain ⟨hmem, hmin⟩ := insertionSort_head_min (dueR parseDate) _ u us hu
        exact ⟨hmem, fun b hb => hmin b hb⟩
      · intro hempty
        rw [hempty] at hu
        simp [List.insertionSort] at hu
    | nil =>
      have hperm := List.perm_insertionSort (dueR parseDate)
        ((x :: xs).filter (upcomingFilter parseDate now))
      rw [hu] at hperm
      have hupEmpty : (x :: xs).filter (upcomingFilter parseDate now) = [] :=
        hperm.symm.eq_nil
      cases hm : List.insertionSort createdR (x :: xs) with
      | nil =>
        have hperm2 := List.perm_insertionSort createdR (x :: xs)
        rw [hm] at hperm2
        exact absurd hperm2.symm.eq_nil (List.cons_ne_nil x xs)
      | cons m ms =>
        refine ⟨m, ?_, ?_, ?_⟩
        · simp only [fetch_assignment_task, hu, hm]
        · intro hne; exact absurd hupEmpty hne
        · intro _
          obtain ⟨hmem, hmax⟩ := insertionSort_head_min createdR _ m ms hm
          exact ⟨hmem, fun b hb => hmax b hb⟩

/-- Witness for C1: a one-assignment course with a future due date; the
non-emptiness hypothesis is discharged concretely and the selection is
evaluated. -/
theorem claim_C1_witness :
    fetch_assignment_task (fun s => if s = "2030-01-01" then some 100 else none) 0
      [⟨1, "HW1", "", some "2030-01-01", some "2024-01-01"⟩] =
      Except.ok ⟨1, "HW1", "", some "2030-01-01", some "2024-01-01"⟩ := by
  obtain ⟨a, ha, -, -⟩ :=
    (claim_C1 (fun s => if s = "2030-01-01" then some 100 else none) 0
      [⟨1, "HW1", "", some "2030-01-01", some "2024-01-01"⟩]).2 (by simp)
  exact rfl

/-! ## html_to_markdown (templates.py)

Each `re.sub` pass of `html_to_markdown` is translated to a scanning rule;
the passes are applied in exactly the source order.  Open tags written
`<name[^>]*>` extend to the first following `>`; non-greedy `(.*?)`
contents extend to the first following close tag — both exactly the regex
semantics. -/

def isDigitCh (c : Char) : Bool := 48 ≤ c.toNat && c.toNat ≤ 57

def isHexDigitCh (c : Char) : Bool :=
  isDigitCh c || (97 ≤ c.toNat && c.toNat ≤ 102) || (65 ≤ c.toNat && c.toNat ≤ 70)

def hexVal (c : Char) : Nat :=
  if isDigitCh c then c.toNat - 48
  else if 97 ≤ c.toNat then c.toNat - 87
  else c.toNat - 55

def natOfDigits (base : Nat) (f : Char → Nat) (l : List Char) : Nat :=
  l.foldl (fun acc c => acc * base + f c) 0

/-- `html.unescape`, modelled for the common named entities and the
numeric `&#NNN;` / `&#xHH;` forms (a single pass, no re-decoding — like
Python's).  Unrecognised entities are left unchanged. -/
def unescapeRule : List Char → Option (List Char × List Char)
  | '&' :: rest =>
    if "amp;".data.isPrefixOf rest then some (['&'], rest.drop 4)
    else if "lt;".data.isPrefixOf rest then some (['<'], rest.drop 3)
    else if "gt;".data.isPrefixOf rest then some (['>'], rest.drop 3)
    else if "quot;".data.isPrefixOf rest then some (['"'], rest.drop 5)
    else if "apos;".data.isPrefixOf rest then some (['\''], rest.drop 5)
    else if "nbsp;".data.isPrefixOf rest then some ([Char.ofNat 160], rest.drop 5)
    else
      match rest with
      | '#' :: 'x' :: r2 =>
        let ds := r2.takeWhile isHexDigitCh
        if ds = [] then none
        else
          match r2.drop ds.length with
          | ';' :: r3 => some ([Char.ofNat (natOfDigits 16 hexVal ds)], r3)
          | _ => none
      | '#' :: r2 =>
        let ds := r2.takeWhile isDigitCh
        if ds = [] then none
        else
          match r2.drop ds.length with
          | ';' :: r3 => some ([Char.ofNat (natOfDigits 10 (fun c => c.toNat - 48) ds)], r3)
          | _ => none
      | _ => none
  | _ => none

/-- `re.sub(r'<style[^>]*>.*?</style>', '', text, flags=re.DOTALL)`. -/
def styleRule (l : List Char) : Option (List Char × List Char) :=
  if "<style".data.isPrefixOf l then
    match splitOnFirst ['>'] (l.drop 6) with
    | some (_, afterGt) =>
      match splitOnFirst "</style>".data afterGt with
      | some (_, after) => some ([], after)
      | none => none
    | none => none
  else none

/-- `re.sub(r'<link[^>]*/?>', '', text)`. -/
def linkTagRule (l : List Char) : Option (List Char × List Char) :=
  if "<link".data.isPrefixOf l then
    match splitOnFirst ['>'] (l.drop 5) with
    | some (_, after) => some ([], after)
    | none => none
  else none

/-- `re.sub(rf'<h{i}[^>]*>(.*?)</h{i}>', '\n' + '#'*i + ' ' + inner.strip() + '\n', ...)`. -/
def headingRule (d : Char) (hashes : List Char) (l : List Char) :
    Option (List Char × List Char) :=
  if ['<', 'h', d].isPrefixOf l then
    match splitOnFirst ['>'] (l.drop 3) with
    | some (_, afterGt) =>
      match splitOnFirst ['<', '/', 'h', d, '>'] afterGt with
      | some (inner, after) =>
        some ('\n' :: hashes ++ ' ' :: stripList pyWs inner ++ ['\n'], after)
      | none => none
    | none => none
  else none

/-- Shared shape of the exact-tag pair substitutions (`<strong>`, `<b>`,
`<em>`, `<i>`, `<code>`): wrap the non-greedy inner content. -/
def pairExactRule (openTag closeTag wrapL wrapR : List Char) (l : List Char) :
    Option (List Char × List Char) :=
  if openTag.isPrefixOf l then
    match splitOnFirst closeTag (l.drop openTag.length) with
    | some (inner, after) => some (wrapL ++ inner ++ wrapR, after)
    | none => none
  else none

/-- `re.sub(r'<(strong|b)>(.*?)</\1>', r'**\2**', ...)`. -/
def boldRule (l : List Char) : Option (List Char × List Char) :=
  match pairExactRule "<strong>".data "</strong>".data "**".data "**".data l with
  | some r => some r
  | none => pairExactRule "<b>".data "</b>".data "**".data "**".data l

/-- `re.sub(r'<(em|i)>(.*?)</\1>', r'*\2*', ...)`. -/
def italicRule (l : List Char) : Option (List Char × List Char) :=
  match pairExactRule "<em>".data "</em>".data "*".data "*".data l with
  | some r => some r
  | none => pairExactRule "<i>".data "</i>".data "*".data "*".data l

/-- `re.sub(r'<pre[^>]*><code[^>]*>(.*?)</code></pre>', ...)`. -/
def preCodeRule (l : List Char) : Option (List Char × List Char) :=
  if "<pre".data.isPrefixOf l then
    match splitOnFirst ['>'] (l.drop 4) with
    | some (_, afterGt) =>
      if "<code".data.isPrefixOf afterGt then
        match splitOnFirst ['>'] (afterGt.drop 5) with
        | some (_, afterGt2) =>
          match splitOnFirst "</code></pre>".data afterGt2 with
          | some (inner, after) =>
            some ("\n```\n".data ++ inner ++ "\n```\n".data, after)
          | none => none
        | none => none
      else none
    | none => none
  else none

def codeRule (l : List Char) : Option (List Char × List Char) :=
  pairExactRule "<code>".data "</code>".data "`".data "`".data l

/-- `re.sub(r'<a[^>]+href="([^"]+)"[^>]*>(.*?)</a>', r'[\2](\1)', ...)`.
The greedy `[^>]+` is realised by taking the last `href="` inside the open
tag (the open tag extends to its first `>`, so this matches the regex
whenever the tag's attribute text contains no `>`). -/
def linkRule (l : List Char) : Option (List Char × List Char) :=
  if "<a".data.isPrefixOf l then
    match splitOnFirst ['>'] (l.drop 2) with
    | some (tag, afterGt) =>
      match splitOnLast "href=\"".data tag with
      | some (junk1, rest1) =>
        if junk1 = [] then none
        else
          match splitOnFirst ['"'] rest1 with
          | some (url, _) =>
            if url = [] then none
            else
              match splitOnFirst "</a>".data afterGt with
              | some (content, after) =>
                some ('[' :: content ++ ']' :: '(' :: url ++ [')'], after)
              | none => none
          | none => none
      | none => none
    | none => none
  else none

/-- `re.sub(r'<img[^>]+src="([^"]+)"[^>]*alt="([^"]*)"[^>]*/?>', r'![\2](\1)', ...)`. -/
def imgAltRule (l : List Char) : Option (List Char × List Char) :=
  if "<img".data.isPrefixOf l then
    match splitOnFirst ['>'] (l.drop 4) with
    | some (tag, after) =>
      match splitOnLast "src=\"".data tag with
      | some (junk1, rest1) =>
        if junk1 = [] then none
        else
          match splitOnFirst ['"'] rest1 with
          | some (url, rest2) =>
            if url = [] then none
            else
              match splitOnLast "alt=\"".data rest2 with
              | some (_, rest3) =>
                match splitOnFirst ['"'] rest3 with
                | some (alt, _) =>
                  some ('!' :: '[' :: alt ++ ']' :: '(' :: url ++ [')'], after)
                | none => none
              | none => none
          | none => none
      | none => none
    | none => none
  else none

/-- `re.sub(r'<img[^>]+src="([^"]+)"[^>]*/?>', r'![image](\1)', ...)`. -/
def imgSrcRule (l : List Char) : Option (List Char × List Char) :=
  if "<img".data.isPrefixOf l then
    match splitOnFirst ['>'] (l.drop 4) with
    | some (tag, after) =>
      match splitOnLast "src=\"".data tag with
      | some (junk1, rest1) =>
        if junk1 = [] then none
        else
          match splitOnFirst ['"'] rest1 with
          | some (url, _) =>
            if url = [] then none
            else some ("![image](".data ++ url ++ [')'], after)
          | none => none
      | none => none
    | none => none
  else none

/-- `re.sub(r'<li[^>]*>(.*?)</li>', r'- \1', ...)`. -/
def liRule (l : List Char) : Option (List Char × List Char) :=
  if "<li".data.isPrefixOf l then
    match splitOnFirst ['>'] (l.drop 3) with
    | some (_, afterGt) =>
      match splitOnFirst "</li>".data afterGt with
      | some (inner, after) => some ('-' :: ' ' :: inner, after)
      | none => none
    | none => none
  else none

/-- `re.sub(r'</?[ou]l[^>]*>', '\n', ...)`. -/
def olUlRule : List Char → Option (List Char × List Char)
  | '<' :: '/' :: c :: 'l' :: rest =>
    if c = 'o' || c = 'u' then
      match splitOnFirst ['>'] rest with
      | some (_, after) => some (['\n'], after)
      | none => none
    else none
  | '<' :: c :: 'l' :: rest =>
    if c = 'o' || c = 'u' then
      match splitOnFirst ['>'] rest with
      | some (_, after) => some (['\n'], after)
      | none => none
    else none
  | _ => none

/-- `re.sub(r'<br\s*/?>', '\n', ...)`. -/
def brRule : List Char → Option (List Char × List Char)
  | '<' :: 'b' :: 'r' :: rest =>
    match rest.dropWhile pyWs with
    | '/' :: '>' :: after => some (['\n'], after)
    | '>' :: after => some (['\n'], after)
    | _ => none
  | _ => none

/-- `re.sub(r'<p[^>]*>(.*?)</p>', r'\n\1\n', ...)`. -/
def pRule (l : List Char) : Option (List Char × List Char) :=
  if "<p".data.isPrefixOf l then
    match splitOnFirst ['>'] (l.drop 2) with
    | some (_, afterGt) =>
      match splitOnFirst "</p>".data afterGt with
      | some (inner, after) => some ('\n' :: inner ++ ['\n'], after)
      | none => none
    | none => none
  else none

/-- `re.sub(r'<hr\s*/?>', '\n---\n', ...)`. -/
def hrRule : List Char → Option (List Char × List Char)
  | '<' :: 'h' :: 'r' :: rest =>
    match rest.dropWhile pyWs with
    | '/' :: '>' :: after => some ("\n---\n".data, after)
    | '>' :: after => some ("\n---\n".data, after)
    | _ => none
  | _ => none

/-- `re.sub(r'<tr[^>]*>(.*?)</tr>', lambda m: '| ' + m.group(1) + '\n', ...)`. -/
def trRule (l : List Char) : Option (List Char × List Char) :=
  if "<tr".data.isPrefixOf l then
    match splitOnFirst ['>'] (l.drop 3) with
    | some (_, afterGt) =>
      match splitOnFirst "</tr>".data afterGt with
      | some (inner, after) => some ('|' :: ' ' :: inner ++ ['\n'], after)
      | none => none
    | none => none
  else none

/-- Split at the earliest occurrence of either needle. -/
def splitOnFirst2 (n1 n2 : List Char) : List Char → Option (List Char × List Char)
  | [] => none
  | c :: rest =>
    if n1.isPrefixOf (c :: rest) then some ([], (c :: rest).drop n1.length)
    else if n2.isPrefixOf (c :: rest) then some ([], (c :: rest).drop n2.length)
    else
      match splitOnFirst2 n1 n2 rest with
      | some (pre, post) => some (c :: pre, post)
      | none => none

/-- `re.sub(r'<t[hd][^>]*>(.*?)</t[hd]>', r'\1 | ', ...)` (the close tag may
be either `</th>` or `</td>`, whichever comes first). -/
def thTdRule : List Char → Option (List Char × List Char)
  | '<' :: 't' :: c :: rest =>
    if c = 'h' || c = 'd' then
      match splitOnFirst ['>'] rest with
      | some (_, afterGt) =>
        match splitOnFirst2 "</th>".data "</td>".data afterGt with
        | some (inner, after) => some (inner ++ ' ' :: '|' :: [' '], after)
        | none => none
      | none => none
    else none
  | _ => none

/-- `re.sub(r'</?table[^>]*>', '\n', ...)`. -/
def tableRule : List Char → Option (List Char × List Char)
  | '<' :: '/' :: 't' :: 'a' :: 'b' :: 'l' :: 'e' :: rest =>
    match splitOnFirst ['>'] rest with
    | some (_, after) => some (['\n'], after)
    | none => none
  | '<' :: 't' :: 'a' :: 'b' :: 'l' :: 'e' :: rest =>
    match splitOnFirst ['>'] rest with
    | some (_, after) => some (['\n'], after)
    | none => none
  | _ => none

/-- `re.sub(r'</?thead[^>]*>', '', ...)`. -/
def theadRule : List Char → Option (List Char × List Char)
  | '<' :: '/' :: 't' :: 'h' :: 'e' :: 'a' :: 'd' :: rest =>
    match splitOnFirst ['>'] rest with
    | some (_, after) => some ([], after)
    | none => none
  | '<' :: 't' :: 'h' :: 'e' :: 'a' :: 'd' :: rest =>
    match splitOnFirst ['>'] rest with
    | some (_, after) => some ([], after)
    | none => none
  | _ => none

/-- `re.sub(r'</?tbody[^>]*>', '', ...)`. -/
def tbodyRule : List Char → Option (List Char × List Char)
  | '<' :: '/' :: 't' :: 'b' :: 'o' :: 'd' :: 'y' :: rest =>
    match splitOnFirst ['>'] rest with
    | some (_, after) => some ([], after)
    | none => none
  | '<' :: 't' :: 'b' :: 'o' :: 'd' :: 'y' :: rest =>
    match splitOnFirst ['>'] rest with
    | some (_, after) => some ([], after)
    | none => none
  | _ => none

/-- Length of the leading run of newlines. -/
def leadNl : List Char → Nat
  | [] => 0
  | c :: rest => if c = '\n' then leadNl rest + 1 else 0

/-- `re.sub(r'\n{3,}', '\n\n', text)`: within each maximal run of newlines,
keep the first two and drop the rest.  `seen` counts the newlines already
kept in the current run (capped at 2). -/
def collapseNlAux : Nat → List Char → List Char
  | _, [] => []
  | seen, c :: rest =>
    if c = '\n' then
      if seen < 2 then '\n' :: collapseNlAux (seen + 1) rest
      else collapseNlAux seen rest
    else c :: collapseNlAux 0 rest

def collapseNl (l : List Char) : List Char := collapseNlAux 0 l

/-- The ordered regex pass chain of `html_to_markdown` (everything between
`unescape` and the final whitespace cleanup).  A single fuel value computed
once from the original input is threaded through all passes: each scan step
consumes at least one character of its pass's input, no pass more than
doubles the length of its input (every replacement is at most nine
characters longer than the text it consumes, which is at least four
characters), and there are 27 passes, so `10^27 * (length + 1)` strictly
bounds the number of steps of every pass and the fuel never runs out. -/
def htmlPasses (l : List Char) : List Char :=
  let fuel := Nat.pow 10 27 * (l.length + 1)
  let t := scanGo unescapeRule fuel l
  let t := scanGo styleRule fuel t
  let t := scanGo linkTagRule fuel t
  let t := scanGo (headingRule '1' "#".data) fuel t
  let t := scanGo (headingRule '2' "##".data) fuel t
  let t := scanGo (headingRule '3' "###".data) fuel t
  let t := scanGo (headingRule '4' "####".data) fuel t
  let t := scanGo (headingRule '5' "#####".data) fuel t
  let t := scanGo (headingRule '6' "######".data) fuel t
  let t := scanGo boldRule fuel t
  let t := scanGo italicRule fuel t
  let t := scanGo preCodeRule fuel t
  let t := scanGo codeRule fuel t
  let t := scanGo linkRule fuel t
  let t := scanGo imgAltRule fuel t
  let t := scanGo imgSrcRule fuel t
  let t := scanGo liRule fuel t
  let t := scanGo olUlRule fuel t
  let t := scanGo brRule fuel t
  let t := scanGo pRule fuel t
  let t := scanGo hrRule fuel t
  let t := scanGo trRule fuel t
  let t := scanGo thTdRule fuel t
  let t := scanGo tableRule fuel t
  let t := scanGo theadRule fuel t
  let t := scanGo tbodyRule fuel t
  scanGo tagRule fuel t

/-- `templates.html_to_markdown`: empty input short-circuits; otherwise run
the pass chain, collapse runs of three-or-more newlines to two, and strip
leading/trailing whitespace. -/
def html_to_markdown (html : String) : String :=
  if html = "" then ""
  else String.mk (stripList pyWs (collapseNl (htmlPasses html.data)))

theorem collapseNlAux_ok : ∀ (l : List Char) (seen : Nat), seen ≤ 2 →
    leadNl (collapseNlAux seen l) + seen ≤ 2 ∧
    ¬(['\n', '\n', '\n'] <:+: collapseNlAux seen l) := by
  intro l
  induction l with
  | nil =>
    intro seen hseen
    refine ⟨by simpa [collapseNlAux, leadNl] using hseen, ?_⟩
    simp [collapseNlAux]
  | cons c rest ih =>
    intro seen hseen
    by_cases hc : c = '\n'
    · subst hc
      by_cases hlt : seen < 2
      · obtain ⟨ih1, ih2⟩ := ih (seen + 1) (by omega)
        constructor
        · show leadNl (collapseNlAux seen ('\n' :: rest)) + seen ≤ 2
          unfold collapseNlAux
          rw [if_pos rfl, if_pos hlt]
          simp only [leadNl, if_true, eq_self_iff_true, if_pos]
          omega
        · show ¬(['\n', '\n', '\n'] <:+: collapseNlAux seen ('\n' :: rest))
          unfold collapseNlAux
          rw [if_pos rfl, if_pos hlt]
          intro hinf
          rcases List.infix_cons_iff.mp hinf with hpre | htl
          · have h2 : ['\n', '\n'] <+: collapseNlAux (seen + 1) rest :=
              (List.cons_prefix_cons.mp hpre).2
            obtain ⟨t, ht⟩ := h2
            have : leadNl (collapseNlAux (seen + 1) rest) ≥ 2 := by
              rw [← ht]
              simp [leadNl]
            omega
          · exact ih2 htl
      · obtain ⟨ih1, ih2⟩ := ih seen hseen
        constructor
        · show leadNl (collapseNlAux seen ('\n' :: rest)) + seen ≤ 2
          unfold collapseNlAux
          rw [if_pos rfl, if_neg hlt]
          exact ih1
        · show ¬(['\n', '\n', '\n'] <:+: collapseNlAux seen ('\n' :: rest))
          unfold collapseNlAux
          rw [if_pos rfl, if_neg hlt]
          exact ih2
    · obtain ⟨ih1, ih2⟩ := ih 0 (by omega)
      constructor
      · show leadNl (collapseNlAux seen (c :: rest)) + seen ≤ 2
        unfold collapseNlAux
        rw [if_neg hc]
        simp only [leadNl, if_neg hc]
        omega
      · show ¬(['\n', '\n', '\n'] <:+: collapseNlAux seen (c :: rest))
        unfold collapseNlAux
        rw [if_neg hc]
        intro hinf
        rcases List.infix_cons_iff.mp hinf with hpre | htl
        · exact hc (List.cons_prefix_cons.mp hpre).1.symm
        · exact ih2 htl

theorem collapseNl_noTriple (l : List Char) :
    ¬(['\n', '\n', '\n'] <:+: collapseNl l) :=
  (collapseNlAux_ok l 0 (by omega)).2

/-- Evaluation of the pass chain on the spec's `<h1>` example, one pass at
a time (only the `h1` pass fires). -/
theorem htmlPasses_h1 : htmlPasses "<h1>Title</h1>".data = "\n# Title\n".data := by
  simp only [htmlPasses]
  rw [show scanGo (unescapeRule) (Nat.pow 10 27 * ("<h1>Title</h1>".data.length + 1)) "<h1>Title</h1>".data = "<h1>Title</h1>".data from by decide]
  rw [show scanGo (styleRule) (Nat.pow 10 27 * ("<h1>Title</h1>".data.length + 1)) "<h1>Title</h1>".data = "<h1>Title</h1>".data from by decide]
  rw [show scanGo (linkTagRule) (Nat.pow 10 27 * ("<h1>Title</h1>".data.length + 1)) "<h1>Title</h1>".data = "<h1>Title</h1>".data from by decide]
  rw [show scanGo (headingRule '1' "#".data) (Nat.pow 10 27 * ("<h1>Title</h1>".data.length + 1)) "<h1>Title</h1>".data = "\n# Title\n".data from by decide]
  rw [show scanGo (headingRule '2' "##".data) (Nat.pow 10 27 * ("<h1>Title</h1>".data.length + 1)) "\n# Title\n".data = "\n# Title\n".data from by decide]
  rw [show scanGo (headingRule '3' "###".data) (Nat.pow 10 27 * ("<h1>Title</h1>".data.length + 1)) "\n# Title\n".data = "\n# Title\n".data from by decide]
  rw [show scanGo (headingRule '4' "####".data) (Nat.pow 10 27 * ("<h1>Title</h1>".data.length + 1)) "\n# Title\n".data = "\n# Title\n".data from by decide]
  rw [show scanGo (headingRule '5' "#####".data) (Nat.pow 10 27 * ("<h1>Title</h1>".data.length + 1)) "\n# Title\n".data = "\n# Title\n".data from by decide]
  rw [show scanGo (headingRule '6' "######".data) (Nat.pow 10 27 * ("<h1>Title</h1>".data.length + 1)) "\n# Title\n".data = "\n# Title\n".data from by decide]
  rw [show scanGo (boldRule) (Nat.pow 10 27 * ("<h1>Title</h1>".data.length + 1)) "\n# Title\n".data = "\n# Title\n".data from by decide]
  rw [show scanGo (italicRule) (Nat.pow 10 27 * ("<h1>Title</h1>".data.length + 1)) "\n# Title\n".data = "\n# Title\n".data from by decide]
  rw [show scanGo (preCodeRule) (Nat.pow 10 27 * ("<h1>Title</h1>".data.length + 1)) "\n# Title\n".data = "\n# Title\n".data from by decide]
  rw [show scanGo (codeRule) (Nat.pow 10 27 * ("<h1>Title</h1>".data.length + 1)) "\n# Title\n".data = "\n# Title\n".data from by decide]
  rw [show scanGo (linkRule) (Nat.pow 10 27 * ("<h1>Title</h1>".data.length + 1)) "\n# Title\n".data = "\n# Title\n".data from by decide]
  rw [show scanGo (imgAltRule) (Nat.pow 10 27 * ("<h1>Title</h1>".data.length + 1)) "\n# Title\n".data = "\n# Title\n".data from by decide]
  rw [show scanGo (imgSrcRule) (Nat.pow 10 27 * ("<h1>Title</h1>".data.length + 1)) "\n# Title\n".data = "\n# Title\n".data from by decide]
  rw [show scanGo (liRule) (Nat.pow 10 27 * ("<h1>Title</h1>".data.length + 1)) "\n# Title\n".data = "\n# Title\n".data from by decide]
  rw [show scanGo (olUlRule) (Nat.pow 10 27 * ("<h1>Title</h1>".data.length + 1)) "\n# Title\n".data = "\n# Title\n".data from by decide]
  rw [show scanGo (brRule) (Nat.pow 10 27 * ("<h1>Title</h1>".data.length + 1)) "\n# Title\n".data = "\n# Title\n".data from by decide]
  rw [show scanGo (pRule) (Nat.pow 10 27 * ("<h1>Title</h1>".data.length + 1)) "\n# Title\n".data = "\n# Title\n".data from by decide]
  rw [show scanGo (hrRule) (Nat.pow 10 27 * ("<h1>Title</h1>".data.length + 1)) "\n# Title\n".data = "\n# Title\n".data from by decide]
  rw [show scanGo (trRule) (Nat.pow 10 27 * ("<h1>Title</h1>".data.length + 1)) "\n# Title\n".data = "\n# Title\n".data from by decide]
  rw [show scanGo (thTdRule) (Nat.pow 10 27 * ("<h1>Title</h1>".data.length + 1)) "\n# Title\n".data = "\n# Title\n".data from by decide]
  rw [show scanGo (tableRule) (Nat.pow 10 27 * ("<h1>Title</h1>".data.length + 1)) "\n# Title\n".data = "\n# Title\n".data from by decide]
  rw [show scanGo (theadRule) (Nat.pow 10 27 * ("<h1>Title</h1>".data.length + 1)) "\n# Title\n".data = "\n# Title\n".data from by decide]
  rw [show scanGo (tbodyRule) (Nat.pow 10 27 * ("<h1>Title</h1>".data.length + 1)) "\n# Title\n".data = "\n# Title\n".data from by decide]
  rw [show scanGo (tagRule) (Nat.pow 10 27 * ("<h1>Title</h1>".data.length + 1)) "\n# Title\n".data = "\n# Title\n".data from by decide]

theorem data_mk_eq (l : List Char) : (String.mk l).data = l := rfl

set_option maxHeartbeats 1000000 in
/-- **C6.** `html_to_markdown "" = ""`; `html_to_markdown "<h1>Title</h1>"`
is exactly the line `"# Title"`; and for every input the output has no run
of three or more newlines and no leading or trailing whitespace. -/
theorem claim_C6 (s : String) :
    html_to_markdown "" = "" ∧
    html_to_markdown "<h1>Title</h1>" = "# Title" ∧
    ¬(['\n', '\n', '\n'] <:+: (html_to_markdown s).data) ∧
    (∀ c, (html_to_markdown s).data.head? = some c → pyWs c = false) ∧
    (∀ c, (html_to_markdown s).data.getLast? = some c → pyWs c = false) := by
  refine ⟨by decide, ?_, ?_, ?_, ?_⟩
  · show html_to_markdown "<h1>Title</h1>" = "# Title"
    unfold html_to_markdown
    rw [if_neg (by decide), htmlPasses_h1]
    decide
  · by_cases hs : s = ""
    · subst hs
      rw [show html_to_markdown "" = "" from rfl]
      decide
    · unfold html_to_markdown
      rw [if_neg hs, data_mk_eq]
      intro hinf
      exact collapseNl_noTriple (htmlPasses s.data)
        (hinf.trans (stripList_infix_self pyWs (collapseNl (htmlPasses s.data))))
  · by_cases hs : s = ""
    · subst hs
      rw [show html_to_markdown "" = "" from rfl]
      intro c hc
      simp at hc
    · intro c hc
      unfold html_to_markdown at hc
      rw [if_neg hs, data_mk_eq] at hc
      exact stripList_head pyWs _ c hc
  · by_cases hs : s = ""
    · subst hs
      rw [show html_to_markdown "" = "" from rfl]
      intro c hc
      simp at hc
    · intro c hc
      unfold html_to_markdown at hc
      rw [if_neg hs, data_mk_eq] at hc
      exact stripList_getLast pyWs _ c hc

set_option maxHeartbeats 1000000 in
/-- Witness for C6: on the input `"x"` the output is `"x"`, whose head `x`
is not whitespace; the head hypothesis is discharged concretely. -/
theorem claim_C6_witness : pyWs 'x' = false :=
  (claim_C6 "x").2.2.2.1 'x' (by decide)

/-! ## Requirement extraction (templates.py) -/

/-- The regex word class `\w` (ASCII): `[A-Za-z0-9_]`. -/
def isWordChar (c : Char) : Bool :=
  (65 ≤ c.toNat && c.toNat ≤ 90) || (97 ≤ c.toNat && c.toNat ≤ 122) ||
  (48 ≤ c.toNat && c.toNat ≤ 57) || c = '_'

def isAlnumCh (c : Char) : Bool :=
  (65 ≤ c.toNat && c.toNat ≤ 90) || (97 ≤ c.toNat && c.toNat ≤ 122) ||
  (48 ≤ c.toNat && c.toNat ≤ 57)

/-- The filename character class `[A-Za-z0-9_/.-]`. -/
def isFnameChar (c : Char) : Bool :=
  isWordChar c || c = '.' || c = '/' || c = '-'

/-- Parse `[A-Za-z0-9_/.-]+\.[A-Za-z0-9]+` greedily at the head of `l`:
take the maximal run of class characters, split at the rightmost dot that
is followed by an alphanumeric, and take the maximal alphanumeric run as
the extension (exactly the backtracking order of the greedy regex). -/
def parseFileToken (l : List Char) : Option (List Char × List Char) :=
  let run := l.takeWhile isFnameChar
  match (List.range run.length).reverse.find? (fun j =>
      decide (1 ≤ j) && (run.get? j == some '.') &&
      (match run.get? (j + 1) with
       | some c => isAlnumCh c
       | none => false)) with
  | some j =>
    let ext := (run.drop (j + 1)).takeWhile isAlnumCh
    let tok := run.take j ++ '.' :: ext
    some (tok, l.drop tok.length)
  | none => none

/-- Case-insensitive literal prefix match (`re.IGNORECASE`). -/
def ciDrop (pat : List Char) (l : List Char) : Option (List Char) :=
  if (l.take pat.length).map asciiLower == pat then some (l.drop pat.length) else none

/-- `\s+`. -/
def wsPlus (l : List Char) : Option (List Char) :=
  let ws := l.takeWhile pyWs
  if ws = [] then none else some (l.drop ws.length)

/-- An optional backtick (the pattern `` `? ``). -/
def optTick : List Char → List Char
  | '`' :: t => t
  | l => l

/-- `r"must be named\s+([A-Za-z0-9_/.-]+\.[A-Za-z0-9]+)"` (IGNORECASE). -/
def mustBeNamedRule (l : List Char) : Option (List Char × List Char) := do
  let r0 ← ciDrop "must be named".data l
  let r1 ← wsPlus r0
  parseFileToken r1

/-- ``r"file called\s+`?([A-Za-z0-9_/.-]+\.[A-Za-z0-9]+)`?"`` (IGNORECASE). -/
def fileCalledRule (l : List Char) : Option (List Char × List Char) := do
  let r0 ← ciDrop "file called".data l
  let r1 ← wsPlus r0
  let (tok, after) ← parseFileToken (optTick r1)
  pure (tok, optTick after)

/-- ``r"include\s+a\s+file\s+named\s+`?([A-Za-z0-9_/.-]+\.[A-Za-z0-9]+)`?"``. -/
def includeFileRule (l : List Char) : Option (List Char × List Char) := do
  let r0 ← ciDrop "include".data l
  let r1 ← wsPlus r0
  let r2 ← ciDrop "a".data r1
  let r3 ← wsPlus r2
  let r4 ← ciDrop "file".data r3
  let r5 ← wsPlus r4
  let r6 ← ciDrop "named".data r5
  let r7 ← wsPlus r6
  let (tok, after) ← parseFileToken (optTick r7)
  pure (tok, optTick after)

/-- `` r"`([A-Za-z0-9_/.-]+\.[A-Za-z0-9]+)`" `` (case-sensitive). -/
def backtickRule : List Char → Option (List Char × List Char)
  | '`' :: rest =>
    match parseFileToken rest with
    | some (tok, after) =>
      match after with
      | '`' :: after2 => some (tok, after2)
      | _ => none
    | none => none
  | _ => none

/-- `re.findall` driver: scan left to right, collecting the capture of every
non-overlapping match. -/
def capScanGo (rule : List Char → Option (List Char × List Char)) :
    Nat → List Char → List (List Char)
  | _, [] => []
  | 0, _ => []
  | fuel + 1, c :: rest =>
    match rule (c :: rest) with
    | some (tok, after) => tok :: capScanGo rule fuel after
    | none => capScanGo rule fuel rest

def capScan (rule : List Char → Option (List Char × List Char))
    (l : List Char) : List (List Char) :=
  capScanGo rule l.length l

/-- The extension alternation of the common-extension pattern, in the
regex's alternation order (`ya?ml` prefers the form with `a`). -/
def extAlternatives : List (List Char) :=
  ["py", "txt", "md", "json", "yaml", "yml", "csv", "java", "js", "cpp",
   "cxx", "cc", "h", "hpp"].map String.data

/-- One match attempt of
`r"\b([A-Za-z0-9_/.-]+\.(?:py|txt|md|json|ya?ml|csv|java|js|cpp|cxx|cc|h|hpp))\b"`
at the head of `l` (the leading `\b` is checked by the caller): the greedy
first part is the rightmost dot whose extension literal (case-insensitive)
is followed by a word boundary. -/
def extTokenAt (l : List Char) : Option (List Char × List Char) :=
  let run := l.takeWhile isFnameChar
  (List.range run.length).reverse.findSome? (fun j =>
    if decide (1 ≤ j) && (run.get? j == some '.') then
      match extAlternatives.find? (fun ext =>
          (((run.drop (j + 1)).take ext.length).map asciiLower == ext) &&
          (match l.get? (j + 1 + ext.length) with
           | some c => !isWordChar c
           | none => true)) with
      | some ext =>
        some (run.take j ++ '.' :: (run.drop (j + 1)).take ext.length,
              l.drop (j + 1 + ext.length))
      | none => none
    else none)

/-- `re.findall` for the common-extension pattern, tracking the previous
character for the leading `\b` word-boundary check. -/
def extScanGo : Option Char → Nat → List Char → List (List Char)
  | _, _, [] => []
  | _, 0, _ => []
  | prev, fuel + 1, c :: rest =>
    let prevWord := match prev with
      | none => false
      | some p => isWordChar p
    match (if prevWord != isWordChar c then extTokenAt (c :: rest) else none) with
    | some (tok, after) => tok :: extScanGo (some (tok.getLastD 'x')) fuel after
    | none => extScanGo (some c) fuel rest

/-- The filename candidates in document order of the five `findall` passes
(explicit phrasings, then backticked tokens, then bare common-extension
tokens), each `.strip()`ed — the list built by
`extract_required_filenames` before deduplication. -/
def rawFilenames (t : List Char) : List String :=
  ((capScan mustBeNamedRule t ++ capScan fileCalledRule t ++
    capScan includeFileRule t ++ capScan backtickRule t ++
    extScanGo none t.length t).map
    (fun tok => String.mk (stripList pyWs tok)))

/-- The first-seen case-insensitive deduplication loop of
`extract_required_filenames` (`seen` holds the lower-cased keys). -/
def dedupGo (seen : List String) : List String → List String
  | [] => []
  | f :: rest =>
    if lowerStr f ∈ seen then dedupGo seen rest
    else f :: dedupGo (lowerStr f :: seen) rest

def dedupCI (raw : List String) : List String := dedupGo [] raw

/-- `templates.extract_required_filenames`. -/
def extract_required_filenames (assignment_description : String) : List String :=
  if assignment_description = "" then []
  else dedupCI (rawFilenames assignment_description.data)

theorem dedupGo_not_seen : ∀ (raw seen : List String),
    ∀ x ∈ dedupGo seen raw, lowerStr x ∉ seen := by
  intro raw
  induction raw with
  | nil => intro seen x hx; simp [dedupGo] at hx
  | cons f rest ih =>
    intro seen x hx
    unfold dedupGo at hx
    by_cases hf : lowerStr f ∈ seen
    · rw [if_pos hf] at hx
      exact ih seen x hx
    · rw [if_neg hf] at hx
      rcases List.mem_cons.mp hx with heq | htail
      · subst heq; exact hf
      · have := ih (lowerStr f :: seen) x htail
        intro hcon
        exact this (List.mem_cons_of_mem _ hcon)

theorem dedupGo_pairwise : ∀ (raw seen : List String),
    List.Pairwise (fun a b => lowerStr a ≠ lowerStr b) (dedupGo seen raw) := by
  intro raw
  induction raw with
  | nil => intro seen; simp [dedupGo]
  | cons f rest ih =>
    intro seen
    unfold dedupGo
    by_cases hf : lowerStr f ∈ seen
    · rw [if_pos hf]; exact ih seen
    · rw [if_neg hf]
      refine List.pairwise_cons.mpr ⟨?_, ih (lowerStr f :: seen)⟩
      intro y hy
      have := dedupGo_not_seen rest (lowerStr f :: seen) y hy
      intro hcon
      exact this (by rw [← hcon]; exact List.mem_cons_self _ _)

theorem dedupGo_sublist : ∀ (raw seen : List String), List.Sublist (dedupGo seen raw) raw := by
  intro raw
  induction raw with
  | nil => intro seen; simp [dedupGo]
  | cons f rest ih =>
    intro seen
    unfold dedupGo
    by_cases hf : lowerStr f ∈ seen
    · rw [if_pos hf]
      exact (ih seen).trans (List.sublist_cons_self f rest)
    · rw [if_neg hf]
      exact List.Sublist.cons₂ f (ih (lowerStr f :: seen))

theorem dedupGo_find : ∀ (raw seen : List String), ∀ e ∈ dedupGo seen raw,
    raw.find? (fun x => lowerStr x == lowerStr e) = some e := by
  intro raw
  induction raw with
  | nil => intro seen e he; simp [dedupGo] at he
  | cons f rest ih =>
    intro seen e he
    unfold dedupGo at he
    by_cases hf : lowerStr f ∈ seen
    · rw [if_pos hf] at he
      have hne : lowerStr f ≠ lowerStr e := by
        intro hcon
        exact dedupGo_not_seen rest seen e he (hcon ▸ hf)
      rw [List.find?_cons_of_neg _ (by simp [hne])]
      exact ih seen e he
    · rw [if_neg hf] at he
      rcases List.mem_cons.mp he with heq | htail
      · subst heq
        rw [List.find?_cons_of_pos _ (by simp)]
      · have hne : lowerStr f ≠ lowerStr e := by
          intro hcon
          exact dedupGo_not_seen rest (lowerStr f :: seen) e htail
            (by rw [← hcon]; exact List.mem_cons_self _ _)
        rw [List.find?_cons_of_neg _ (by simp [hne])]
        exact ih (lowerStr f :: seen) e htail

set_option maxHeartbeats 1000000 in
/-- **C7.** `extract_required_filenames` returns `[]` on empty text;
deduplicates case-insensitively preserving first-seen order (the output is
pairwise distinct ignoring case, a sublist of the raw candidate list, and
each entry is the first raw candidate with its key); and on the spec's
example it contains both `maze.txt` and `Report.md`. -/
theorem claim_C7 (s : String) :
    extract_required_filenames "" = [] ∧
    List.Pairwise (fun a b => lowerStr a ≠ lowerStr b)
      (extract_required_filenames s) ∧
    List.Sublist (extract_required_filenames s) (rawFilenames s.data) ∧
    (∀ e ∈ extract_required_filenames s,
      (rawFilenames s.data).find? (fun x => lowerStr x == lowerStr e) = some e) ∧
    "maze.txt" ∈
      extract_required_filenames
        "Initialize `maze.txt` and include a report in Report.md." ∧
    "Report.md" ∈
      extract_required_filenames
        "Initialize `maze.txt` and include a report in Report.md." := by
  refine ⟨rfl, ?_, ?_, ?_, by decide, by decide⟩
  · by_cases hs : s = ""
    · subst hs
      rw [show extract_required_filenames "" = [] from rfl]
      exact List.Pairwise.nil
    · unfold extract_required_filenames
      rw [if_neg hs]
      exact dedupGo_pairwise _ []
  · by_cases hs : s = ""
    · subst hs
      rw [show extract_required_filenames "" = [] from rfl]
      exact List.nil_sublist _
    · unfold extract_required_filenames
      rw [if_neg hs]
      exact dedupGo_sublist _ []
  · intro e he
    by_cases hs : s = ""
    · subst hs
      rw [show extract_required_filenames "" = [] from rfl] at he
      simp at he
    · unfold extract_required_filenames at he
      rw [if_neg hs] at he
      exact dedupGo_find _ [] e he

set_option maxHeartbeats 1000000 in
/-- Witness for C7: the first-occurrence property evaluated at the entry
`maze.txt` of the spec's example, with the membership hypothesis
discharged concretely. -/
theorem claim_C7_witness :
    (rawFilenames "Initialize `maze.txt` and include a report in Report.md.".data).find?
        (fun x => lowerStr x == lowerStr "maze.txt") = some "maze.txt" :=
  (claim_C7 "Initialize `maze.txt` and include a report in Report.md.").2.2.2.1
    "maze.txt" (by decide)

/-! ## File sets and templates (templates.py)

A `FileSet` is an insertion-ordered mapping from relative path to content —
the shape of a Python `dict[str, str]`: lookup by key, assignment replaces
in place, new keys append. -/

abbrev FileSet := List (String × String)

def lookupFS {α : Type} : List (String × α) → String → Option α
  | [], _ => none
  | (k', v) :: rest, k => if k' = k then some v else lookupFS rest k

def keysFS {α : Type} (m : List (String × α)) : List String := m.map Prod.fst

/-- `d[k] = v` on a Python dict: replace in place, else append. -/
def insertFS : FileSet → String → String → FileSet
  | [], k, v => [(k, v)]
  | (k', v') :: rest, k, v =>
    if k' = k then (k', v) :: rest else (k', v') :: insertFS rest k v

/-- `d.update(extra)` on a Python dict. -/
def updateFS (m : FileSet) (extra : FileSet) : FileSet :=
  extra.foldl (fun acc kv => insertFS acc kv.1 kv.2) m

theorem lookupFS_insertFS (m : FileSet) (k v : String) :
    lookupFS (insertFS m k v) k = some v := by
  induction m with
  | nil => simp [insertFS, lookupFS]
  | cons kv rest ih =>
    obtain ⟨k', v'⟩ := kv
    unfold insertFS
    by_cases h : k' = k
    · rw [if_pos h]
      unfold lookupFS
      rw [if_pos h]
    · rw [if_neg h]
      unfold lookupFS
      rw [if_neg h]
      exact ih

theorem lookupFS_insertFS_ne (m : FileSet) (k k' v : String) (h : k' ≠ k) :
    lookupFS (insertFS m k' v) k = lookupFS m k := by
  induction m with
  | nil => simp [insertFS, lookupFS, h]
  | cons kv rest ih =>
    obtain ⟨k'', v''⟩ := kv
    unfold insertFS
    by_cases h2 : k'' = k'
    · rw [if_pos h2]
      unfold lookupFS
      rw [if_neg (h2 ▸ h), if_neg (h2 ▸ h)]
    · rw [if_neg h2]
      unfold lookupFS
      by_cases h3 : k'' = k
      · rw [if_pos h3, if_pos h3]
      · rw [if_neg h3, if_neg h3]
        exact ih

theorem lookupFS_updateFS_not_mem : ∀ (extra m : FileSet) (k : String),
    (∀ kv ∈ extra, kv.1 ≠ k) →
    lookupFS (updateFS m extra) k = lookupFS m k := by
  intro extra
  induction extra with
  | nil => intro m k _; rfl
  | cons kv rest ih =>
    intro m k h
    show lookupFS (updateFS (insertFS m kv.1 kv.2) rest) k = lookupFS m k
    rw [ih (insertFS m kv.1 kv.2) k (fun kv' hkv' => h kv' (List.mem_cons_of_mem kv hkv'))]
    exact lookupFS_insertFS_ne m k kv.1 kv.2 (h kv (List.mem_cons_self kv rest))

theorem keysFS_mem_insertFS (m : FileSet) (k v a : String) (h : a ∈ keysFS m) :
    a ∈ keysFS (insertFS m k v) := by
  induction m with
  | nil => simp [keysFS] at h
  | cons kv rest ih =>
    obtain ⟨k', v'⟩ := kv
    unfold insertFS
    by_cases h2 : k' = k
    · rw [if_pos h2]
      simpa [keysFS] using h
    · rw [if_neg h2]
      rcases List.mem_cons.mp h with heq | htail
      · exact heq ▸ List.mem_cons_self _ _
      · exact List.mem_cons_of_mem _ (ih htail)

theorem keysFS_mem_updateFS : ∀ (extra m : FileSet) (a : String),
    a ∈ keysFS m → a ∈ keysFS (updateFS m extra) := by
  intro extra
  induction extra with
  | nil => intro m a h; exact h
  | cons kv rest ih =>
    intro m a h
    exact ih (insertFS m kv.1 kv.2) a (keysFS_mem_insertFS m kv.1 kv.2 a h)
def PYTHON_TEMPLATES : FileSet :=
  [
   ("README.md",
    "# {assignment_name}\n\n## Overview\n"
    ++ "This repository contains starter code for this assignment.\n\n"
    ++ "## Full Assignment\n"
    ++ "See `ASSIGNMENT.md` for the complete assignment brief.\n\n## Due Date\n"
    ++ "{due_date}\n\n## Setup\n```bash\npip install -r requirements.txt\n```\n"
    ++ "\n## Running Tests\n```bash\npytest\n```\n\n## Submission\n"
    ++ "Complete the implementation in `main.py` and ensure all tests pass.\n"),
   ("requirements.txt",
    "pytest>=7.4.0\n"),
   ("main.py",
    "\"\"\"\n{assignment_name}\n\n{assignment_description}\n\"\"\"\n\n\n"
    ++ "def main():\n"
    ++ "    \"\"\"Main function - implement your solution here.\"\"\"\n    pass"
    ++ "\n\n\nif __name__ == \"__main__\":\n    main()\n"),
   ("tests/test_main.py",
    "\"\"\"\nTests for {assignment_name}\n\"\"\"\nimport pytest\n"
    ++ "from main import main\n\n\ndef test_main():\n"
    ++ "    \"\"\"Test the main function.\"\"\"\n"
    ++ "    # TODO: Add your test cases here\n    pass\n"),
   (".gitignore",
    "# Python\n__pycache__/\n*.py[cod]\n*$py.class\n*.so\n.Python\nbuild/\n"
    ++ "dist/\n*.egg-info/\n.pytest_cache/\n.coverage\nhtmlcov/\nvenv/\nenv/\n"
    ++ ".env\n")]

def JAVA_TEMPLATES : FileSet :=
  [
   ("README.md",
    "# {assignment_name}\n\n## Overview\n"
    ++ "This repository contains starter code for this assignment.\n\n"
    ++ "## Full Assignment\n"
    ++ "See `ASSIGNMENT.md` for the complete assignment brief.\n\n## Due Date\n"
    ++ "{due_date}\n\n## Setup\nEnsure you have Java 11+ installed.\n\n"
    ++ "## Building\n```bash\njavac Main.java\n```\n\n## Running\n```bash\n"
    ++ "java Main\n```\n\n## Testing\n```bash\n"
    ++ "javac -cp .:junit-platform-console-standalone.jar Test.java\n"
    ++ "java -jar junit-platform-console-standalone.jar --class-path . --scan-class-path"
    ++ "\n```\n\n## Submission\n"
    ++ "Complete the implementation in `Main.java` and ensure all tests pass.\n"),
   ("Main.java",
    "/**\n * {assignment_name}\n * \n * {assignment_description}\n */\n"
    ++ "public class Main \x7b\x7b\n"
    ++ "    public static void main(String[] args) \x7b\x7b\n"
    ++ "        // TODO: Implement your solution here\n"
    ++ "        System.out.println(\"Hello, World!\");\n    \x7d\x7d\n\x7d\x7d\n"),
   ("Test.java",
    "import org.junit.jupiter.api.Test;\n"
    ++ "import static org.junit.jupiter.api.Assertions.*;\n\n/**\n"
    ++ " * Tests for {assignment_name}\n */\npublic class Test \x7b\x7b\n"
    ++ "    @Test\n    public void testMain() \x7b\x7b\n"
    ++ "        // TODO: Add your test cases here\n        assertTrue(true);\n"
    ++ "    \x7d\x7d\n\x7d\x7d\n"),
   (".gitignore",
    "# Java\n*.class\n*.jar\n*.war\n*.ear\ntarget/\nbuild/\n.gradle/\n.idea/"
    ++ "\n*.iml\n")]

def JAVASCRIPT_TEMPLATES : FileSet :=
  [
   ("README.md",
    "# {assignment_name}\n\n## Overview\n"
    ++ "This repository contains starter code for this assignment.\n\n"
    ++ "## Full Assignment\n"
    ++ "See `ASSIGNMENT.md` for the complete assignment brief.\n\n## Due Date\n"
    ++ "{due_date}\n\n## Setup\n```bash\nnpm install\n```\n\n## Running Tests\n"
    ++ "```bash\nnpm test\n```\n\n## Running the Application\n```bash\nnpm start"
    ++ "\n```\n\n## Submission\n"
    ++ "Complete the implementation in `index.js` and ensure all tests pass.\n"),
   ("package.json",
    "\x7b\x7b\n  \"name\": \"{assignment_slug}\",\n  \"version\": \"1.0.0\","
    ++ "\n  \"description\": \"{assignment_description}\",\n"
    ++ "  \"main\": \"index.js\",\n  \"scripts\": \x7b\x7b\n"
    ++ "    \"test\": \"jest\",\n    \"start\": \"node index.js\"\n  \x7d\x7d,\n"
    ++ "  \"devDependencies\": \x7b\x7b\n    \"jest\": \"^29.0.0\"\n  \x7d\x7d\n"
    ++ "\x7d\x7d\n"),
   ("index.js",
    "/**\n * {assignment_name}\n * \n * {assignment_description}\n */\n\n"
    ++ "function main() \x7b\x7b\n  // TODO: Implement your solution here\n"
    ++ "  console.log('Hello, World!');\n\x7d\x7d\n\n"
    ++ "if (require.main === module) \x7b\x7b\n  main();\n\x7d\x7d\n\n"
    ++ "module.exports = \x7b\x7b main \x7d\x7d;\n"),
   ("index.test.js",
    "/**\n * Tests for {assignment_name}\n */\n"
    ++ "const \x7b\x7b main \x7d\x7d = require('./index');\n\n"
    ++ "describe('{assignment_name}', () => \x7b\x7b\n"
    ++ "  test('main function exists', () => \x7b\x7b\n"
    ++ "    expect(main).toBeDefined();\n  \x7d\x7d);\n  \n"
    ++ "  // TODO: Add your test cases here\n\x7d\x7d);\n"),
   (".gitignore",
    "# Node\nnode_modules/\nnpm-debug.log*\nyarn-debug.log*\nyarn-error.log*"
    ++ "\n.env\n.DS_Store\ncoverage/\ndist/\n")]

def CPP_TEMPLATES : FileSet :=
  [
   ("README.md",
    "# {assignment_name}\n\n## Overview\n"
    ++ "This repository contains starter code for this assignment.\n\n"
    ++ "## Full Assignment\n"
    ++ "See `ASSIGNMENT.md` for the complete assignment brief.\n\n## Due Date\n"
    ++ "{due_date}\n\n## Setup\n"
    ++ "Ensure you have a C++ compiler (g++ or clang++) installed.\n\n"
    ++ "## Building\n```bash\ng++ -std=c++17 main.cpp -o main\n```\n\n## Running"
    ++ "\n```bash\n./main\n```\n\n## Testing\n```bash\n"
    ++ "g++ -std=c++17 test.cpp -o test\n./test\n```\n\n## Submission\n"
    ++ "Complete the implementation in `main.cpp` and ensure all tests pass.\n"),
   ("main.cpp",
    "/**\n * {assignment_name}\n * \n * {assignment_description}\n */\n"
    ++ "#include <iostream>\n\nint main() \x7b\x7b\n"
    ++ "    // TODO: Implement your solution here\n"
    ++ "    std::cout << \"Hello, World!\" << std::endl;\n    return 0;\n"
    ++ "\x7d\x7d\n"),
   ("test.cpp",
    "/**\n * Tests for {assignment_name}\n */\n#include <cassert>\n"
    ++ "#include <iostream>\n\nvoid test_main() \x7b\x7b\n"
    ++ "    // TODO: Add your test cases here\n    assert(true);\n"
    ++ "    std::cout << \"All tests passed!\" << std::endl;\n\x7d\x7d\n\n"
    ++ "int main() \x7b\x7b\n    test_main();\n    return 0;\n\x7d\x7d\n"),
   (".gitignore",
    "# C++\n*.o\n*.exe\n*.out\nmain\ntest\n.vscode/\n.idea/\n")]
/-- The language-alias table of templates.py, in insertion order. -/
def TEMPLATE_MAP : List (String × FileSet) :=
  [("python", PYTHON_TEMPLATES), ("py", PYTHON_TEMPLATES),
   ("java", JAVA_TEMPLATES), ("javascript", JAVASCRIPT_TEMPLATES),
   ("js", JAVASCRIPT_TEMPLATES), ("node", JAVASCRIPT_TEMPLATES),
   ("cpp", CPP_TEMPLATES), ("c++", CPP_TEMPLATES)]

/-- `templates.get_template_for_language`: exact alias lookup first, then a
substring match over the aliases sorted by length descending (Python's
stable `sorted(..., key=len, reverse=True)` = the stable insertion sort
under the length-descending preorder), defaulting to Python. -/
def get_template_for_language (language : String) : FileSet :=
  let language_lower := lowerStr language
  match lookupFS TEMPLATE_MAP language_lower with
  | some t => t
  | none =>
    let sorted_keys := List.insertionSort
      (fun a b => String.length b ≤ String.length a) (keysFS TEMPLATE_MAP)
    match sorted_keys.find? (fun key => containsStr language_lower key) with
    | some key => (lookupFS TEMPLATE_MAP key).getD PYTHON_TEMPLATES
    | none => PYTHON_TEMPLATES

/-- The keyword substitution environment of one `str.format` call in
`generate_starter_files`. -/
structure FmtEnv where
  nameV : String
  descV : String
  dueV : String
  slugV : String

def formatLookup (env : FmtEnv) (field : List Char) : List Char :=
  if field = "assignment_name".data then env.nameV.data
  else if field = "assignment_description".data then env.descV.data
  else if field = "due_date".data then env.dueV.data
  else if field = "assignment_slug".data then env.slugV.data
  else []

/-- Python `str.format`: `\x7b\x7b`/`\x7d\x7d` are literal braces, a braced
field is replaced by its keyword argument.  The templates only use the four
fields above and are well-formed, so the error cases cannot arise there. -/
def formatGo (env : FmtEnv) : Nat → List Char → List Char
  | _, [] => []
  | 0, l => l
  | fuel + 1, c :: rest =>
    if c = '\x7b' then
      match rest with
      | '\x7b' :: rest2 => '\x7b' :: formatGo env fuel rest2
      | _ =>
        match splitOnFirst ['\x7d'] rest with
        | some (field, after) => formatLookup env field ++ formatGo env fuel after
        | none => []
    else if c = '\x7d' then
      match rest with
      | '\x7d' :: rest2 => '\x7d' :: formatGo env fuel rest2
      | _ => c :: formatGo env fuel rest
    else c :: formatGo env fuel rest

def formatTmpl (env : FmtEnv) (tmpl : String) : String :=
  String.mk (formatGo env tmpl.data.length tmpl.data)

/-! ## Assignment-specific augmentation (templates.py) -/

/-- `re.findall(r"\b([A-Za-z_][A-Za-z0-9_]*)\s*\(", text)`: identifiers
followed by optional whitespace and an opening parenthesis, with the
leading word boundary tracked via the previous character. -/
def funcNameScanGo : Option Char → Nat → List Char → List (List Char)
  | _, _, [] => []
  | _, 0, _ => []
  | prev, fuel + 1, c :: rest =>
    let prevWord := match prev with
      | none => false
      | some p => isWordChar p
    let isIdentStart := (65 ≤ c.toNat && c.toNat ≤ 90) ||
      (97 ≤ c.toNat && c.toNat ≤ 122) || c = '_'
    if !prevWord && isIdentStart then
      let identRest := rest.takeWhile isWordChar
      match (rest.drop identRest.length).dropWhile pyWs with
      | '(' :: after => (c :: identRest) :: funcNameScanGo (some '(') fuel after
      | _ => funcNameScanGo (some c) fuel rest
    else funcNameScanGo (some c) fuel rest

/-- `templates.extract_required_function_names`: collect identifier`(`
matches; drop dunder-prefixed names and the blocklist
`{"solution", "print", "main"}` (checked on the lower-cased name);
deduplicate exactly, preserving first-seen order. -/
def extract_required_function_names (assignment_description : String) : List String :=
  if assignment_description = "" then []
  else
    let names := (funcNameScanGo none assignment_description.data.length
      assignment_description.data).map String.mk
    names.foldl (fun acc name =>
      if "__".data.isPrefixOf name.data then acc
      else if lowerStr name = "solution" ∨ lowerStr name = "print" ∨
          lowerStr name = "main" then acc
      else if name ∈ acc then acc
      else acc ++ [name]) []

def maze_function_block (function_name : String) : String :=
  "def " ++ function_name ++
  "(maze):\n    \"\"\"Solve the maze and return the solved maze output.\"\"\"\n    return maze\n"

/-- `"\n\n".join`. -/
def joinSep (sep : String) : List String → String
  | [] => ""
  | [x] => x
  | x :: rest => x ++ sep ++ joinSep sep rest

def maze_solvers_content (assignment_name : String) (maze_functions : List String) : String :=
  "\"\"\"" ++ assignment_name ++ " maze solver interface.\"\"\"\n\n" ++
  joinSep "\n\n" (maze_functions.map maze_function_block) ++ "\n"

def maze_txt_content : String :=
  "10 6\nXXXXXXXXXX\nX        S\nX XXXXXX X\nX X    XXX\nX   XX   E\nXXXXXXXXXX\n"

def report_md_content (assignment_name : String) : String :=
  "# " ++ assignment_name ++ " Report\n\n## Introduction to Search Algorithms\n\n" ++
  "## Selected Algorithms\n\n## Heuristics Used\n\n## Performance Comparison\n\n" ++
  "## Optimality, Time, and Space Analysis\n\n" ++
  "## Maze Variations and Performance Impact\n\n## Real-life Application\n"

/-- `templates.build_assignment_specific_files`: Python-only; adds a
`maze_solvers.py` stub module (one stub per requested `maze_solver_*`
function, three default names when none), a fixed `maze.txt`, and a fixed
`Report.md` skeleton, each under its trigger condition.  The three keys are
distinct, so the dict insertions are the concatenation below. -/
def build_assignment_specific_files
    (assignment_name assignment_description language : String) : FileSet :=
  if ¬(lowerStr language = "python" ∨ lowerStr language = "py") then []
  else
    let requested_files := extract_required_filenames assignment_description
    let requested_functions := extract_required_function_names assignment_description
    let requested_lower := requested_files.map lowerStr
    (if "maze_solvers.py" ∈ requested_lower then
      [("maze_solvers.py", maze_solvers_content assignment_name
        (let maze_functions := requested_functions.filter (fun n =>
            "maze_solver_".data.isPrefixOf n.data ||
            n == "maze_solver_one" || n == "maze_solver_two" ||
            n == "maze_solver_three")
         if maze_functions = [] then
           ["maze_solver_one", "maze_solver_two", "maze_solver_three"]
         else maze_functions))]
     else []) ++
    (if "maze.txt" ∈ requested_lower ∨
        containsStr (lowerStr assignment_description) "maze" = true then
      [("maze.txt", maze_txt_content)]
     else []) ++
    (if "report.md" ∈ requested_lower ∨
        containsStr (lowerStr assignment_description) "report" = true then
      [("Report.md", report_md_content assignment_name)]
     else [])

/-- The `ASSIGNMENT.md` entry always appended by `generate_starter_files`. -/
def assignment_md (assignment_name assignment_description due_date : String) : String :=
  "# " ++ assignment_name ++ "\n\n## Full Assignment Brief\n" ++
  assignment_description ++ "\n\n## Due Date\n" ++ due_date ++ "\n"

/-- `generate_starter_files` before the assignment-specific augmentation:
the resolved template bundle rendered (full description only in
`README.md`, the ≤200-char short description elsewhere), plus the appended
`ASSIGNMENT.md`. -/
def generate_starter_base
    (assignment_name assignment_description due_date language
     short_description : String) : FileSet :=
  let template := get_template_for_language language
  let assignment_slug := normalize_slug assignment_name
  let short := if short_description = "" then
      String.mk (assignment_description.data.take 200)
    else short_description
  insertFS
    (template.map (fun pt =>
      (pt.1, formatTmpl
        ⟨assignment_name,
         if pt.1 = "README.md" then assignment_description else short,
         due_date, assignment_slug⟩ pt.2)))
    "ASSIGNMENT.md" (assignment_md assignment_name assignment_description due_date)

/-- `templates.generate_starter_files`. -/
def generate_starter_files
    (assignment_name assignment_description due_date language
     short_description : String) : FileSet :=
  updateFS
    (generate_starter_base assignment_name assignment_description due_date
      language short_description)
    (build_assignment_specific_files assignment_name assignment_description language)

/-! ## Helper lemmas about the generator -/

theorem lookupFS_mem_values {α : Type} : ∀ (m : List (String × α)) (k : String) (v : α),
    lookupFS m k = some v → v ∈ m.map Prod.snd := by
  intro m
  induction m with
  | nil => intro k v h; simp [lookupFS] at h
  | cons kv rest ih =>
    intro k v h
    obtain ⟨k', v'⟩ := kv
    unfold lookupFS at h
    by_cases h2 : k' = k
    · rw [if_pos h2] at h
      simp at h
      simp [← h]
    · rw [if_neg h2] at h
      exact List.mem_cons_of_mem _ (ih k v h)

/-- Every language resolves to one of the four template bundles. -/
theorem get_template_cases (language : String) :
    get_template_for_language language = PYTHON_TEMPLATES ∨
    get_template_for_language language = JAVA_TEMPLATES ∨
    get_template_for_language language = JAVASCRIPT_TEMPLATES ∨
    get_template_for_language language = CPP_TEMPLATES := by
  simp only [get_template_for_language]
  cases hl : lookupFS TEMPLATE_MAP (lowerStr language) with
  | some t =>
    have hmem := lookupFS_mem_values _ _ _ hl
    simp only [TEMPLATE_MAP, List.map_cons, List.map_nil, List.mem_cons,
      List.not_mem_nil, or_false] at hmem
    show t = PYTHON_TEMPLATES ∨ t = JAVA_TEMPLATES ∨
      t = JAVASCRIPT_TEMPLATES ∨ t = CPP_TEMPLATES
    rcases hmem with h | h | h | h | h | h | h | h <;> subst h
    · exact Or.inl rfl
    · exact Or.inl rfl
    · exact Or.inr (Or.inl rfl)
    · exact Or.inr (Or.inr (Or.inl rfl))
    · exact Or.inr (Or.inr (Or.inl rfl))
    · exact Or.inr (Or.inr (Or.inl rfl))
    · exact Or.inr (Or.inr (Or.inr rfl))
    · exact Or.inr (Or.inr (Or.inr rfl))
  | none =>
    cases hf : (List.insertionSort
        (fun a b => String.length b ≤ String.length a)
        (keysFS TEMPLATE_MAP)).find? (fun key => containsStr (lowerStr language) key) with
    | none => exact Or.inl rfl
    | some key =>
      have hmem : key ∈ List.insertionSort
          (fun a b => String.length b ≤ String.length a) (keysFS TEMPLATE_MAP) :=
        List.mem_of_find?_eq_some hf
      have hmem2 : key ∈ keysFS TEMPLATE_MAP :=
        (List.perm_insertionSort _ _).mem_iff.mp hmem
      simp only [TEMPLATE_MAP, keysFS, List.map_cons, List.map_nil, List.mem_cons,
        List.not_mem_nil, or_false] at hmem2
      show (lookupFS TEMPLATE_MAP key).getD PYTHON_TEMPLATES = PYTHON_TEMPLATES ∨
        (lookupFS TEMPLATE_MAP key).getD PYTHON_TEMPLATES = JAVA_TEMPLATES ∨
        (lookupFS TEMPLATE_MAP key).getD PYTHON_TEMPLATES = JAVASCRIPT_TEMPLATES ∨
        (lookupFS TEMPLATE_MAP key).getD PYTHON_TEMPLATES = CPP_TEMPLATES
      rcases hmem2 with h | h | h | h | h | h | h | h <;> subst h
      · exact Or.inl rfl
      · exact Or.inl rfl
      · exact Or.inr (Or.inl rfl)
      · exact Or.inr (Or.inr (Or.inl rfl))
      · exact Or.inr (Or.inr (Or.inl rfl))
      · exact Or.inr (Or.inr (Or.inl rfl))
      · exact Or.inr (Or.inr (Or.inr rfl))
      · exact Or.inr (Or.inr (Or.inr rfl))

/-- Every entry the augmentation can add lives under one of the three fixed
paths. -/
theorem mem_ite_singleton {c : Prop} [Decidable c] {x kv : String × String}
    (h : kv ∈ if c then [x] else []) : kv = x := by
  split_ifs at h with hc
  · exact List.mem_singleton.mp h
  · exact absurd h (List.not_mem_nil kv)

theorem build_keys (assignment_name assignment_description language : String) :
    ∀ kv ∈ build_assignment_specific_files assignment_name
      assignment_description language,
      kv.1 = "maze_solvers.py" ∨ kv.1 = "maze.txt" ∨ kv.1 = "Report.md" := by
  intro kv hkv
  unfold build_assignment_specific_files at hkv
  by_cases h0 : ¬(lowerStr language = "python" ∨ lowerStr language = "py")
  · rw [if_pos h0] at hkv
    exact absurd hkv (List.not_mem_nil kv)
  · rw [if_neg h0] at hkv
    simp only [List.mem_append] at hkv
    rcases hkv with (h | h) | h
    · rw [mem_ite_singleton h]
      exact Or.inl rfl
    · rw [mem_ite_singleton h]
      exact Or.inr (Or.inl rfl)
    · rw [mem_ite_singleton h]
      exact Or.inr (Or.inr rfl)

theorem keysFS_render (template : FileSet) (f : String × String → String) :
    keysFS (template.map (fun pt => (pt.1, f pt))) = keysFS template := by
  induction template with
  | nil => rfl
  | cons kv rest ih =>
    simp only [List.map_cons, keysFS] at *
    rw [ih]

theorem keysFS_insertFS_not_mem : ∀ (m : FileSet) (k v : String),
    k ∉ keysFS m → keysFS (insertFS m k v) = keysFS m ++ [k] := by
  intro m
  induction m with
  | nil => intro k v _; rfl
  | cons kv rest ih =>
    intro k v h
    obtain ⟨k', v'⟩ := kv
    have h1 : k' ≠ k := fun hcon =>
      h (by rw [← hcon]; exact List.mem_cons_self k' (keysFS rest))
    have h2 : k ∉ keysFS rest := fun hcon => h (List.mem_cons_of_mem k' hcon)
    unfold insertFS
    rw [if_neg h1]
    show k' :: keysFS (insertFS rest k v) = k' :: keysFS rest ++ [k]
    rw [ih k v h2]
    rfl

/-- The keys of the pre-augmentation file set: the resolved template's keys
with `ASSIGNMENT.md` appended. -/
theorem keys_base (assignment_name assignment_description due_date language
    short_description : String) :
    keysFS (generate_starter_base assignment_name assignment_description
      due_date language short_description) =
    keysFS (get_template_for_language language) ++ ["ASSIGNMENT.md"] := by
  unfold generate_starter_base
  rw [keysFS_insertFS_not_mem _ _ _ (by
    rw [keysFS_render]
    rcases get_template_cases language with h | h | h | h <;> rw [h] <;> decide)]
  rw [keysFS_render]

set_option maxHeartbeats 1000000 in
/-- **C10.** For every input combination the generated FileSet contains
`README.md`, `.gitignore` and `ASSIGNMENT.md`; the assignment-specific
augmentation only adds entries under the three fixed paths
`maze_solvers.py`, `maze.txt`, `Report.md`; and the augmentation never
changes the content of any pre-augmentation entry (template-rendered files
and `ASSIGNMENT.md`). -/
theorem claim_C10 (assignment_name assignment_description due_date language
    short_description : String) :
    "README.md" ∈ keysFS (generate_starter_files assignment_name
      assignment_description due_date language short_description) ∧
    ".gitignore" ∈ keysFS (generate_starter_files assignment_name
      assignment_description due_date language short_description) ∧
    "ASSIGNMENT.md" ∈ keysFS (generate_starter_files assignment_name
      assignment_description due_date language short_description) ∧
    (∀ kv ∈ build_assignment_specific_files assignment_name
        assignment_description language,
      kv.1 = "maze_solvers.py" ∨ kv.1 = "maze.txt" ∨ kv.1 = "Report.md") ∧
    (∀ k, k ∈ keysFS (generate_starter_base assignment_name
        assignment_description due_date language short_description) →
      lookupFS (generate_starter_files assignment_name assignment_description
        due_date language short_description) k =
      lookupFS (generate_starter_base assignment_name assignment_description
        due_date language short_description) k) := by
  have hkb := keys_base assignment_name assignment_description due_date language
    short_description
  have htc := get_template_cases language
  unfold generate_starter_files
  have hmem : ∀ x : String,
      x ∈ keysFS (generate_starter_base assignment_name assignment_description
        due_date language short_description) →
      x ∈ keysFS (updateFS
        (generate_starter_base assignment_name assignment_description due_date
          language short_description)
        (build_assignment_specific_files assignment_name assignment_description
          language)) :=
    fun x hx => keysFS_mem_updateFS _ _ x hx
  refine ⟨?_, ?_, ?_, build_keys _ _ _, ?_⟩
  · exact hmem _ (by rw [hkb]; rcases htc with h | h | h | h <;> rw [h] <;> decide)
  · exact hmem _ (by rw [hkb]; rcases htc with h | h | h | h <;> rw [h] <;> decide)
  · exact hmem _ (by rw [hkb]; rcases htc with h | h | h | h <;> rw [h] <;> decide)
  · intro k hk
    apply lookupFS_updateFS_not_mem
    intro kv hkv
    rcases build_keys assignment_name assignment_description language kv hkv with
      h | h | h <;> rw [h] <;> intro hcon <;> rw [← hcon] at hk <;>
      rw [hkb] at hk <;> rcases htc with t | t | t | t <;> rw [t] at hk <;>
      exact absurd hk (by decide)

set_option maxHeartbeats 1000000 in
/-- Witness for C10: the never-overwrites conjunct evaluated at
`README.md` on a concrete run, membership discharged concretely. -/
theorem claim_C10_witness :
    lookupFS (generate_starter_files "A" "B" "d" "python" "s") "README.md" =
      lookupFS (generate_starter_base "A" "B" "d" "python" "s") "README.md" :=
  (claim_C10 "A" "B" "d" "python" "s").2.2.2.2 "README.md" (by decide)

set_option maxRecDepth 4000 in
set_option maxHeartbeats 1000000 in
/-- **C3.** The concrete FileSet of the spec's example has exactly the six
expected keys, `"Test Assignment"` occurs in `README.md`, `"This is a
test"` occurs in `ASSIGNMENT.md`; and for every input combination the
`ASSIGNMENT.md` entry is exactly the full description plus the due date. -/
theorem claim_C3 (assignment_name assignment_description due_date language
    short_description : String) :
    keysFS (generate_starter_files "Test Assignment" "This is a test"
        "2024-12-31" "python" "") =
      ["README.md", "requirements.txt", "main.py", "tests/test_main.py",
       ".gitignore", "ASSIGNMENT.md"] ∧
    (lookupFS (generate_starter_files "Test Assignment" "This is a test"
        "2024-12-31" "python" "") "README.md").map
      (fun r => containsStr r "Test Assignment") = some true ∧
    (lookupFS (generate_starter_files "Test Assignment" "This is a test"
        "2024-12-31" "python" "") "ASSIGNMENT.md").map
      (fun r => containsStr r "This is a test") = some true ∧
    lookupFS (generate_starter_files assignment_name assignment_description
        due_date language short_description) "ASSIGNMENT.md" =
      some (assignment_md assignment_name assignment_description due_date) := by
  refine ⟨by decide, by decide, by decide, ?_⟩
  have hne : ∀ kv ∈ build_assignment_specific_files assignment_name
      assignment_description language, kv.1 ≠ "ASSIGNMENT.md" := by
    intro kv hkv
    rcases build_keys assignment_name assignment_description language kv hkv with
      h | h | h <;> rw [h] <;> decide
  unfold generate_starter_files
  rw [lookupFS_updateFS_not_mem _ _ _ hne]
  simp only [generate_starter_base]
  exact lookupFS_insertFS _ _ _

/-- Number of (possibly overlapping) occurrences of `needle` in `s`. -/
def countSubstr (s needle : String) : Nat :=
  ((List.range s.data.length).filter
    (fun i => needle.data.isPrefixOf (s.data.drop i))).length

/-- The assignment description of the spec's maze example. -/
def maze_assignment_description : String :=
  "The file must be named maze_solvers.py. The file must include the " ++
  "function names: maze_solver_one, maze_solver_two and maze_solver_three."

set_option maxRecDepth 4000 in
set_option maxHeartbeats 1000000 in
/-- **C4.** For the maze description and language `python`, the generated
FileSet maps `maze_solvers.py` to the stub module with exactly the three
default function names (no function names are extractable from the
description, which contains no parenthesis); the content is spelled out
explicitly and defines exactly three stubs. -/
theorem claim_C4 (assignment_name due_date short_description : String) :
    lookupFS (generate_starter_files assignment_name maze_assignment_description
        due_date "python" short_description) "maze_solvers.py" =
      some (maze_solvers_content assignment_name
        ["maze_solver_one", "maze_solver_two", "maze_solver_three"]) ∧
    maze_solvers_content "" ["maze_solver_one", "maze_solver_two", "maze_solver_three"] =
      "\"\"\" maze solver interface.\"\"\"\n\ndef maze_solver_one(maze):\n"
      ++ "    \"\"\"Solve the maze and return the solved maze output.\"\"\"\n"
      ++ "    return maze\n\n\ndef maze_solver_two(maze):\n"
      ++ "    \"\"\"Solve the maze and return the solved maze output.\"\"\"\n"
      ++ "    return maze\n\n\ndef maze_solver_three(maze):\n"
      ++ "    \"\"\"Solve the maze and return the solved maze output.\"\"\"\n"
      ++ "    return maze\n\n" ∧
    countSubstr (maze_solvers_content ""
      ["maze_solver_one", "maze_solver_two", "maze_solver_three"]) "def " = 3 ∧
    containsStr (maze_solvers_content ""
      ["maze_solver_one", "maze_solver_two", "maze_solver_three"])
      "def maze_solver_one(maze):" = true ∧
    containsStr (maze_solvers_content ""
      ["maze_solver_one", "maze_solver_two", "maze_solver_three"])
      "def maze_solver_two(maze):" = true ∧
    containsStr (maze_solvers_content ""
      ["maze_solver_one", "maze_solver_two", "maze_solver_three"])
      "def maze_solver_three(maze):" = true := by
  refine ⟨?_, by decide, by decide, by decide, by decide, by decide⟩
  have hbuild : build_assignment_specific_files assignment_name
      maze_assignment_description "python" =
      [("maze_solvers.py", maze_solvers_content assignment_name
          ["maze_solver_one", "maze_solver_two", "maze_solver_three"]),
       ("maze.txt", maze_txt_content)] := rfl
  unfold generate_starter_files
  rw [hbuild]
  show lookupFS
    (insertFS
      (insertFS (generate_starter_base assignment_name maze_assignment_description
        due_date "python" short_description)
        "maze_solvers.py" (maze_solvers_content assignment_name
          ["maze_solver_one", "maze_solver_two", "maze_solver_three"]))
      "maze.txt" maze_txt_content) "maze_solvers.py" =
    some (maze_solvers_content assignment_name
      ["maze_solver_one", "maze_solver_two", "maze_solver_three"])
  rw [lookupFS_insertFS_ne _ _ _ _ (by decide)]
  exact lookupFS_insertFS _ _ _

/-! ## Pipeline orchestration (main.py, github_tools.py, notion_tools.py)

The external collaborators are function-valued parameters; every remote
call performed is recorded in an explicit log, so "no remote call is
attempted" is the statement that the log is empty. -/

/-- The two Notion environment variables probed by
`validate_notion_config` (`none` models an unset variable). -/
structure Env where
  NOTION_TOKEN : Option String
  NOTION_PARENT_PAGE_ID : Option String
deriving DecidableEq

/-- `main.CanvasGitHubAgent.validate_notion_config`: the names of the
required Notion variables that are absent or blank, in probe order. -/
def validate_notion_config (env : Env) : List String :=
  (if pyStrip (env.NOTION_TOKEN.getD "") = "" then ["NOTION_TOKEN"] else []) ++
  (if pyStrip (env.NOTION_PARENT_PAGE_ID.getD "") = "" then ["NOTION_PARENT_PAGE_ID"] else [])

structure Repo where
  ownerLogin : String
  name : String
deriving DecidableEq

structure Page where
  url : String
deriving DecidableEq

/-- One remote call performed by a run. -/
inductive Call where
  | createRepository (name description : String)
  | createFile (path : String)
  | createPage (title : String)
deriving DecidableEq

/-- The external collaborators (GitHub repository creation and file upload,
Notion page creation), abstracted as functions; `none`/`false` is a remote
failure. -/
structure Collab where
  createRepository : String → String → Option Repo
  createFile : String → String → Bool
  createPage : String → String → String → Option Page

/-- The record returned by `create_repository_task` on the success path. -/
structure RepoResult where
  repository : Repo
  assignment : Assignment
  files_created : List String
  files_uploaded : Bool
deriving DecidableEq

inductive RunOutcome where
  | github (r : RepoResult)
  | notion (page : Page) (assignment : Assignment)
deriving DecidableEq

/-- Python string slicing `s[:n]`. -/
def pyTake (n : Nat) (s : String) : String := String.mk (s.data.take n)

/-- `github_tools.GitHubTools.create_directory_structure`: upload every
file in order, each upload logged; the flag is the conjunction
`success = success and result` accumulated across all files (a failure
never aborts the loop). -/
def create_directory_structure (c : Collab) (files : FileSet) : Bool × List Call :=
  files.foldl
    (fun acc pc => (acc.1 && c.createFile pc.1 pc.2, acc.2 ++ [Call.createFile pc.1]))
    (true, [])

/-- The repository description of `create_repository_task`:
`f"{assignment_name} - Due: {due_at}"[:350]`. -/
def repoDescOf (assignment : Assignment) : String :=
  pyTake 350 (assignment.name ++ " - Due: " ++ assignment.due_at.getD "No due date")

/-- The starter FileSet built by `create_repository_task`: the description
converted to Markdown for the README, the ≤200-char stripped short
description for code comments. -/
def starterFilesOf (assignment : Assignment) (language : String) : FileSet :=
  generate_starter_files assignment.name
    (html_to_markdown assignment.description)
    (assignment.due_at.getD "No due date") language
    (pyTake 200 (strip_html assignment.description))

/-- `main.CanvasGitHubAgent.create_repository_task`: create the repository
(named by the slug); on failure return `None` (repository creation was the
only call); on success upload every starter file and return the record
with the repository, the full generated key list and the upload flag. -/
def create_repository_task (c : Collab) (assignment : Assignment)
    (language : String) : Option RepoResult × List Call :=
  let repo_name := normalize_slug assignment.name
  let repo_desc := repoDescOf assignment
  match c.createRepository repo_name repo_desc with
  | none => (none, [Call.createRepository repo_name repo_desc])
  | some repo =>
    let starter_files := starterFilesOf assignment language
    let fu := create_directory_structure c starter_files
    (some ⟨repo, assignment, keysFS starter_files, fu.1⟩,
     Call.createRepository repo_name repo_desc :: fu.2)

/-- `main.CanvasGitHubAgent.create_notion_page_task` over
`notion_tools.create_assignment_page`. -/
def create_notion_page_task (c : Collab) (assignment : Assignment) :
    Option (Page × Assignment) × List Call :=
  match c.createPage assignment.name (strip_html assignment.description)
      (assignment.due_at.getD "No due date") with
  | none => (none, [Call.createPage assignment.name])
  | some page => (some (page, assignment), [Call.createPage assignment.name])

/-- The branching part of `main.CanvasGitHubAgent.run` (after the
assignment has been fetched and its type resolved): the coding branch
creates the repository and uploads files; the writing branch first
validates the Notion configuration and returns `None` before any remote
call when a variable is missing, then creates the page. -/
def runPipeline (env : Env) (c : Collab) (assignment : Assignment)
    (language : String) (assignment_type : String) :
    Option RunOutcome × List Call :=
  if assignment_type = "coding" then
    match create_repository_task c assignment language with
    | (none, calls) => (none, calls)
    | (some r, calls) => (some (RunOutcome.github r), calls)
  else
    if validate_notion_config env ≠ [] then (none, [])
    else
      match create_notion_page_task c assignment with
      | (none, calls) => (none, calls)
      | (some pa, calls) => (some (RunOutcome.notion pa.1 pa.2), calls)

/-- **C8.** On the writing branch, if either Notion variable is absent or
blank, the run fails (returns no artifact) with an empty call log: no
remote call is attempted and no page is produced. -/
theorem claim_C8 (env : Env) (c : Collab) (assignment : Assignment)
    (language : String)
    (h : pyStrip (env.NOTION_TOKEN.getD "") = "" ∨
         pyStrip (env.NOTION_PARENT_PAGE_ID.getD "") = "") :
    runPipeline env c assignment language "writing" = (none, []) := by
  have hm : validate_notion_config env ≠ [] := by
    unfold validate_notion_config
    rcases h with h | h
    · rw [if_pos h]; simp
    · by_cases hA : pyStrip (env.NOTION_TOKEN.getD "") = ""
      · rw [if_pos hA, if_pos h]; simp
      · rw [if_neg hA, if_pos h]; simp
  unfold runPipeline
  rw [if_neg (by decide : ¬("writing" : String) = "coding"), if_pos hm]

/-- A concrete collaborator whose page creation always fails and whose
repository creation always succeeds trivially (for witnesses). -/
def demoCollabFail : Collab :=
  ⟨fun _ _ => some ⟨"o", "r"⟩, fun _ _ => false, fun _ _ _ => none⟩

def demoAssignment : Assignment := ⟨1, "HW", "", none, none⟩

/-- Witness for C8: with `NOTION_TOKEN` unset, the writing branch returns
no artifact and performs no call. -/
theorem claim_C8_witness :
    runPipeline ⟨none, some "page-id"⟩ demoCollabFail demoAssignment "python"
      "writing" = (none, []) :=
  claim_C8 ⟨none, some "page-id"⟩ demoCollabFail demoAssignment "python"
    (Or.inl (by decide))

theorem create_directory_structure_go (c : Collab) :
    ∀ (files : FileSet) (b : Bool) (log : List Call),
    files.foldl
      (fun acc pc => (acc.1 && c.createFile pc.1 pc.2, acc.2 ++ [Call.createFile pc.1]))
      (b, log) =
    (b && files.all (fun pc => c.createFile pc.1 pc.2),
     log ++ files.map (fun pc => Call.createFile pc.1)) := by
  intro files
  induction files with
  | nil => intro b log; simp
  | cons pc rest ih =>
    intro b log
    simp only [List.foldl_cons, List.all_cons, List.map_cons]
    rw [ih, Bool.and_assoc]
    simp

theorem create_directory_structure_spec (c : Collab) (files : FileSet) :
    create_directory_structure c files =
    (files.all (fun pc => c.createFile pc.1 pc.2),
     files.map (fun pc => Call.createFile pc.1)) := by
  unfold create_directory_structure
  rw [create_directory_structure_go]
  simp

set_option maxHeartbeats 1000000 in
/-- **C9.** On the coding branch, when repository creation succeeds but at
least one file upload fails, the task still attempts every upload (the log
records one `createFile` call per generated file, in order) and returns
the record with the created repository, the full generated key list, and
`files_uploaded = false` — the repository is not discarded. -/
theorem claim_C9 (c : Collab) (assignment : Assignment) (language : String)
    (repo : Repo)
    (hrepo : c.createRepository (normalize_slug assignment.name)
      (repoDescOf assignment) = some repo)
    (hfail : ∃ pc ∈ starterFilesOf assignment language,
      c.createFile pc.1 pc.2 = false) :
    create_repository_task c assignment language =
      (some ⟨repo, assignment, keysFS (starterFilesOf assignment language), false⟩,
       Call.createRepository (normalize_slug assignment.name) (repoDescOf assignment) ::
         (starterFilesOf assignment language).map
           (fun pc => Call.createFile pc.1)) := by
  have hall : (starterFilesOf assignment language).all
      (fun pc => c.createFile pc.1 pc.2) = false := by
    obtain ⟨pc0, hpc0, hfalse⟩ := hfail
    rw [List.all_eq_false]
    exact ⟨pc0, hpc0, by simp [hfalse]⟩
  simp only [create_repository_task]
  rw [hrepo]
  show (some (⟨repo, assignment, keysFS (starterFilesOf assignment language),
      (create_directory_structure c (starterFilesOf assignment language)).1⟩ : RepoResult),
    Call.createRepository (normalize_slug assignment.name) (repoDescOf assignment) ::
      (create_directory_structure c (starterFilesOf assignment language)).2) = _
  rw [create_directory_structure_spec, hall]

set_option maxRecDepth 4000 in
set_option maxHeartbeats 1000000 in
/-- Witness for C9: a collaborator that creates the repository and fails
every upload, on a concrete assignment; both hypotheses are discharged
concretely (the first generated file witnesses the failing upload). -/
theorem claim_C9_witness :
    (create_repository_task demoCollabFail demoAssignment "python").1 =
      some ⟨⟨"o", "r"⟩, demoAssignment,
        keysFS (starterFilesOf demoAssignment "python"), false⟩ := by
  have h := claim_C9 demoCollabFail demoAssignment "python" ⟨"o", "r"⟩ rfl
    ⟨("README.md",
      (lookupFS (starterFilesOf demoAssignment "python") "README.md").getD ""),
     by decide, rfl⟩
  rw [h]
